import Mathlib

/-!
# go-clickhouse-batchinsert: a shallow embedding

The repository holds two engines with the same shape.

* `batch_insert.go` (constructor `NewBatchInsert`, namespace `batch_insert` below, together
  with `option.go`): the caller passes an already opened `*sql.DB`; the flush signal `kick`
  is a channel of capacity 1.
* `batch.go` (constructor `New`, namespace `batch` below): the engine opens the store itself;
  `kick` is an unbuffered channel and shutdown is signalled by closing the channel `exit`.

Every method body that runs between `mu.Lock()` and `mu.Unlock()` is one atomic step of the
model.  The flusher goroutine is modelled by the `select` that wakes it and by the body of one
iteration of its `for` loop.  A run of the program is a list of such steps.

The store behind `*sql.DB` is an oracle: a function from the calls made so far and the next
call to that call's outcome.  Records are lists of values of an arbitrary type `V`.
-/

namespace batchinsert

/-- Go `error` values; `none : Option GoError` is the `nil` error. -/
structure GoError where
  msg : String
deriving DecidableEq, Repr

/-- Go `errors.New`. -/
def errors.New (text : String) : GoError := ⟨text⟩

/-- Calls made on `database/sql` objects by this package. -/
inductive Call (V : Type) where
  | Begin
  | Prepare (query : String)
  | Exec (args : List V)
  | StmtClose
  | Commit
  | Rollback
  | Ping
  | Close
deriving DecidableEq, Repr

/-- The store behind a `*sql.DB`: `respond` gives the outcome of a call from the calls made
before it (oldest first), `log` is the list of calls made so far. -/
structure DB (V : Type) where
  respond : List (Call V) → Call V → Option GoError
  log : List (Call V)

/-- Make one call on the store: it is appended to the log and its outcome returned. -/
def DB.call {V : Type} (db : DB V) (c : Call V) : DB V × Option GoError :=
  ({ db with log := db.log ++ [c] }, db.respond db.log c)

/-- The loop `for e := values.Front(); e != nil; e = e.Next()` of `batchInsert`: one `Exec`
per record, in order, returning at the first error. -/
def execAll {V : Type} (db : DB V) : List (List V) → DB V × Option GoError
  | [] => (db, none)
  | value :: rest =>
    match db.call (Call.Exec value) with
    | (db1, some err) => (db1, some err)
    | (db1, none) => execAll db1 rest

/-- The body of `batchInsert` on a non-nil `db` (identical in `batch_insert.go` and
`batch.go`).  The two deferred calls run in reverse order of registration: `stmt.Close()`
first, then the closure that rolls back when the named result `err` is not nil. -/
def batchInsertTx {V : Type} (db : DB V) (sqlStr : String) (values : List (List V)) :
    DB V × Option GoError :=
  match db.call Call.Begin with
  | (db1, some err) => (db1, some err)
  | (db1, none) =>
    match db1.call (Call.Prepare sqlStr) with
    | (db2, some err) => ((db2.call Call.Rollback).1, some err)
    | (db2, none) =>
      match execAll db2 values with
      | (db3, some err) =>
        let db4 := (db3.call Call.StmtClose).1
        ((db4.call Call.Rollback).1, some err)
      | (db3, none) =>
        match db3.call Call.Commit with
        | (db4, some err) =>
          let db5 := (db4.call Call.StmtClose).1
          ((db5.call Call.Rollback).1, some err)
        | (db4, none) => ((db4.call Call.StmtClose).1, none)

/-! ## The parts of Go's `net/url` and `strconv` the package calls

These are not code of the repository; they are transcribed from the Go standard library so
that `GetUrl` can be evaluated. -/

namespace strconv

/-- Go `strconv.Itoa`: the decimal form of an integer. -/
def Itoa (i : Int) : String := toString i

/-- Go `strconv.FormatBool`. -/
def FormatBool (b : Bool) : String := if b then "true" else "false"

end strconv

namespace url

/-- The two escaping modes `URL.String` and `Values.Encode` use. -/
inductive encoding where
  | encodeHost
  | encodeQueryComponent
deriving DecidableEq, Repr

/-- ASCII letters and digits. -/
def isAlnum (c : Char) : Bool :=
  (97 ≤ c.toNat && c.toNat ≤ 122) || (65 ≤ c.toNat && c.toNat ≤ 90) ||
    (48 ≤ c.toNat && c.toNat ≤ 57)

/-- The characters `shouldEscape` lets through in a host besides letters, digits and marks:
the sub-delimiters, the colon, the brackets, the angle brackets, the apostrophe (39) and the
double quote (34). -/
def hostExtra (c : Char) : Bool :=
  decide (c ∈ "!$&()*+,;=:[]<>".data) || c.toNat == 39 || c.toNat == 34

/-- Go `shouldEscape` for an ASCII byte in the two modes used: letters and digits are kept; in
a host the characters of `hostExtra` are kept; the marks `- _ . ~` are kept; every other byte
is escaped (the reserved characters are all escaped in a query component, and those a host
keeps were let through before). -/
def shouldEscape (c : Char) (mode : encoding) : Bool :=
  if isAlnum c then false
  else if mode = encoding.encodeHost && hostExtra c then false
  else if decide (c ∈ "-_.~".data) then false
  else true

/-- The table `upperhex`. -/
def upperhex : String := "0123456789ABCDEF"

/-- The three bytes `%XY` written for an escaped byte. -/
def escapeByte (b : Nat) : List Char :=
  ['%', upperhex.data.getD (b / 16) '0', upperhex.data.getD (b % 16) '0']

/-- What `escape` writes for one character of its input.  Go works on the bytes of the
string; a character outside ASCII is a run of bytes above 127, each of which is escaped. -/
def escapeChar (mode : encoding) (c : Char) : List Char :=
  if c = ' ' ∧ mode = encoding.encodeQueryComponent then ['+']
  else if c.toNat < 128 then
    if shouldEscape c mode then escapeByte c.toNat else [c]
  else (String.utf8EncodeChar c).flatMap (fun b => escapeByte b.toNat)

/-- Go `escape`. -/
def escape (s : String) (mode : encoding) : String :=
  String.mk (s.data.flatMap (escapeChar mode))

/-- Go `url.QueryEscape`. -/
def QueryEscape (s : String) : String := escape s encoding.encodeQueryComponent

/-- Go `url.Values` (`map[string][]string`) as an association list with one entry per key. -/
abbrev Values := List (String × List String)

/-- Go `Values.Set`: `v[key] = []string{value}`. -/
def Values.Set : Values → String → String → Values
  | [], key, value => [(key, [value])]
  | (k, vs) :: rest, key, value =>
    if k = key then (k, [value]) :: rest else (k, vs) :: Values.Set rest key value

/-- The statement `if set { v.Set(key, value) }`. -/
def Values.setIf (set : Bool) (v : Values) (key value : String) : Values :=
  if set then Values.Set v key value else v

/-- The map read `v[k]`. -/
def Values.lookup : Values → String → List String
  | [], _ => []
  | (k, vs) :: rest, key => if k = key then vs else Values.lookup rest key

/-- Byte-wise order of strings, as Go compares them. -/
def keyLE (a b : String) : Prop := a.data ≤ b.data

instance : DecidableRel keyLE := fun a b => inferInstanceAs (Decidable (a.data ≤ b.data))

/-- Go `Values.Encode`: the keys are sorted, and for every key each of its values is written
as `key=value`, both query-escaped, with `&` between the pairs. -/
def Values.Encode (v : Values) : String :=
  "&".intercalate
    ((List.insertionSort keyLE (v.map Prod.fst)).flatMap fun k =>
      (Values.lookup v k).map fun x => QueryEscape k ++ "=" ++ QueryEscape x)

/-- The fields of Go's `url.URL` that `GetUrl` sets; all others keep their zero value. -/
structure URL where
  Scheme : String
  Host : String
  RawQuery : String
deriving DecidableEq, Repr

/-- Go `(*URL).String` for a URL whose `Opaque`, `User`, `Path` and `Fragment` are empty and
whose `ForceQuery` and `OmitHost` are false: the scheme and a colon, then `//` and the escaped
host when the host is not empty, then `?` and the raw query when it is not empty. -/
def URL.toString (u : URL) : String :=
  (if u.Scheme ≠ "" then u.Scheme ++ ":" else "") ++
  (if u.Scheme ≠ "" ∨ u.Host ≠ "" then
    (if u.Host ≠ "" then "//" ++ escape u.Host encoding.encodeHost else "")
   else "") ++
  (if u.RawQuery ≠ "" then "?" ++ u.RawQuery else "")

end url

/-- How a call of `Close` stands after its critical section: it has returned `err`, or it is
blocked in `b.wg.Wait()`. -/
inductive CloseStatus where
  | returned (err : Option GoError)
  | waiting
deriving DecidableEq, Repr

/-- What one iteration of the flusher loop did: the batch it passed to `batchInsert` (if it
called it), the error that call returned, the errors it passed to the error handler
(`onError` in `batch_insert.go`, `logger.Log("flush error", err)` in `batch.go`), and whether
the flusher returned at the end of the iteration. -/
structure CycleObs (V : Type) where
  handed : Option (List (List V))
  result : Option GoError
  notified : List GoError
  stopped : Bool
deriving DecidableEq, Repr

/-! ## `batch_insert.go` -/

namespace batch_insert

/-- A `chan struct{}`: only its capacity and the number of buffered elements matter. -/
structure Chan where
  cap : Nat
  len : Nat
deriving DecidableEq, Repr

/-- The struct `BatchInsert`.  `mu` is the atomicity of the steps; `wg` is the counter of the
wait group (1 while the flusher goroutine lives); `onError` is left out of the state, its
invocations are recorded in `CycleObs.notified`. -/
structure BatchInsert (V : Type) where
  db : Option (DB V)
  closed : Bool
  kick : Chan
  cache : List (List V)
  sqlStr : String
  maxCache : Int
  wg : Nat

/-- The type `BatchInsertOption`. -/
abbrev BatchInsertOption (V : Type) := BatchInsert V → BatchInsert V

/-- `WithMaxCache`. -/
def WithMaxCache {V : Type} (max : Int) : BatchInsertOption V :=
  fun insert => { insert with maxCache := max }

/-- `time.Second`, in nanoseconds. -/
def time.Second : Int := 1000000000

/-- The duration the flusher passes to `time.NewTimer` and to `t.Reset`. -/
def flusherTimerPeriod : Int := time.Second

/-- `NewBatchInsert`; `go b.flusher()` leaves the flusher waiting in its `select`. -/
def NewBatchInsert {V : Type} (db : Option (DB V)) (sql : String)
    (opts : List (BatchInsertOption V)) : BatchInsert V :=
  let b : BatchInsert V :=
    { db := db, closed := false, kick := { cap := 1, len := 0 }, cache := [],
      sqlStr := sql, maxCache := 1000000, wg := 0 }
  let b := opts.foldl (fun b opt => opt b) b
  { b with wg := b.wg + 1 }

/-- `kickFlush`: a send that is dropped when the channel is full. -/
def kickFlush {V : Type} (b : BatchInsert V) : BatchInsert V :=
  if b.kick.len < b.kick.cap then { b with kick := { b.kick with len := b.kick.len + 1 } }
  else b

/-- `Insert`. -/
def Insert {V : Type} (b : BatchInsert V) (values : List V) : BatchInsert V × Option GoError :=
  if b.closed then (b, some (errors.New "batch insert closed"))
  else
    let b1 := { b with cache := b.cache ++ [values] }
    let b2 := if (b1.cache.length : Int) ≥ b1.maxCache then kickFlush b1 else b1
    (b2, none)

/-- `Close` up to and including `b.mu.Unlock()`. -/
def Close {V : Type} (b : BatchInsert V) : BatchInsert V × CloseStatus :=
  if b.closed then (b, CloseStatus.returned none)
  else (kickFlush { b with closed := true }, CloseStatus.waiting)

/-- The rest of `Close`: `b.wg.Wait()` returns once the counter is 0, then `return nil`. -/
def CloseWait {V : Type} (b : BatchInsert V) : Option (Option GoError) :=
  if b.wg = 0 then some none else none

/-- `batchInsert` of `batch_insert.go`. -/
def batchInsert {V : Type} (db : Option (DB V)) (sqlStr : String) (values : List (List V)) :
    Option (DB V) × Option GoError :=
  match db with
  | none => (none, some (errors.New "nil db"))
  | some db => ((batchInsertTx db sqlStr values).1, (batchInsertTx db sqlStr values).2)

/-- What woke the flusher: `case <-t.C` or `case <-b.kick`. -/
inductive Wake where
  | timer
  | kick
deriving DecidableEq, Repr

/-- The `select` at the top of the flusher loop.  The timer case can always be taken (the
timer fires at some time); the kick case needs a buffered element and removes it. -/
def flusherSelect {V : Type} (b : BatchInsert V) : Wake → Option (BatchInsert V)
  | Wake.timer => some b
  | Wake.kick =>
    if 0 < b.kick.len then some { b with kick := { b.kick with len := b.kick.len - 1 } }
    else none

/-- One iteration of the flusher loop after the `select`.  Between iterations the local `l`
is nil.  The timer handling (`t.Stop`, the drain, `t.Reset`) has no effect on the state. -/
def flusherBody {V : Type} (b : BatchInsert V) : BatchInsert V × CycleObs V :=
  let l : Option (List (List V)) := if b.cache.length > 0 then some b.cache else none
  let b1 := if b.cache.length > 0 then { b with cache := [] } else b
  let closed := b1.closed
  match l with
  | some l =>
    let r := batchInsert b1.db b1.sqlStr l
    let b2 := { b1 with db := r.1 }
    let notified := match r.2 with
      | some err => [err]
      | none => []
    if closed then
      ({ b2 with wg := b2.wg - 1 }, ⟨some l, r.2, notified, true⟩)
    else (b2, ⟨some l, r.2, notified, false⟩)
  | none =>
    if closed then ({ b1 with wg := b1.wg - 1 }, ⟨none, none, [], true⟩)
    else (b1, ⟨none, none, [], false⟩)

/-- One flusher cycle: possible while the flusher goroutine lives and the `select` can take
the case `w`. -/
def flusherCycle {V : Type} (b : BatchInsert V) (w : Wake) :
    Option (BatchInsert V × CycleObs V) :=
  if b.wg = 0 then none
  else (flusherSelect b w).map flusherBody

/-- The atomic steps of a run. -/
inductive Action (V : Type) where
  | insert (values : List V)
  | cycle (w : Wake)
  | close
  | closeWait
deriving DecidableEq, Repr

/-- What a step showed to the outside. -/
inductive Obs (V : Type) where
  | insert (err : Option GoError)
  | cycle (o : CycleObs V)
  | close (st : CloseStatus)
  | closeWait (err : Option GoError)
deriving DecidableEq, Repr

/-- One step; `none` when the step cannot be taken in this state. -/
def step {V : Type} (b : BatchInsert V) : Action V → Option (BatchInsert V × Obs V)
  | Action.insert values => some ((Insert b values).1, Obs.insert (Insert b values).2)
  | Action.cycle w => (flusherCycle b w).map (fun r => (r.1, Obs.cycle r.2))
  | Action.close => some ((Close b).1, Obs.close (Close b).2)
  | Action.closeWait => (CloseWait b).map (fun err => (b, Obs.closeWait err))

/-- A run: the steps taken one after the other, with their observations in order. -/
def run {V : Type} (b : BatchInsert V) : List (Action V) → Option (BatchInsert V × List (Obs V))
  | [] => some (b, [])
  | a :: rest =>
    match step b a with
    | none => none
    | some (b1, o) =>
      match run b1 rest with
      | none => none
      | some (b2, os) => some (b2, o :: os)

/-- The batches passed to `batchInsert` during a run, in order. -/
def flushed {V : Type} : List (Obs V) → List (List (List V))
  | [] => []
  | Obs.cycle o :: rest => o.handed.toList ++ flushed rest
  | _ :: rest => flushed rest

/-- The records of the `Insert` calls of a schedule, in order. -/
def inserted {V : Type} : List (Action V) → List (List V)
  | [] => []
  | Action.insert values :: rest => values :: inserted rest
  | _ :: rest => inserted rest

/-- A schedule of the open phase: only `Insert` calls and flusher cycles. -/
def openPhase {V : Type} : List (Action V) → Bool
  | [] => true
  | Action.insert _ :: rest => openPhase rest
  | Action.cycle _ :: rest => openPhase rest
  | _ :: _ => false

/-! ### `option.go` -/

/-- The struct `Options`.  `Hosts` is a Go slice: `none` is the nil slice. -/
structure Options where
  UserName : String
  Password : String
  Database : String
  ReadTimeout : Int
  WriteTimeOut : Int
  Delay : Bool
  Hosts : Option (List String)
  BlockSize : Int
  PoolSize : Int
  Debug : Bool
  Secure : Bool
  NotSkipVerify : Bool
deriving DecidableEq, Repr

/-- Go `len` of a slice. -/
def len (hosts : Option (List String)) : Nat := (hosts.getD []).length

/-- The query parameters `Options.GetUrl` collects, in the order of its `v.Set` calls. -/
def Options.values (opts : Options) : url.Values :=
  let v : url.Values := []
  let v := url.Values.setIf (decide (opts.UserName ≠ "")) v "username" opts.UserName
  let v := url.Values.setIf (decide (opts.Password ≠ "")) v "password" opts.Password
  let v := url.Values.setIf (decide (opts.Database ≠ "")) v "database" opts.Database
  let v := url.Values.setIf (decide (opts.ReadTimeout > 0)) v "read_timeout"
    (strconv.Itoa opts.ReadTimeout)
  let v := url.Values.setIf (decide (opts.WriteTimeOut > 0)) v "write_timeout"
    (strconv.Itoa opts.WriteTimeOut)
  let v := url.Values.setIf opts.Delay v "no_delay" (strconv.FormatBool (!opts.Delay))
  let v := url.Values.setIf (decide (len opts.Hosts > 1)) v "alt_hosts"
    (",".intercalate ((opts.Hosts.getD []).drop 1))
  let v := url.Values.setIf (decide (opts.BlockSize > 0)) v "block_size"
    (strconv.Itoa opts.BlockSize)
  let v := url.Values.setIf (decide (opts.PoolSize > 0)) v "pool_size"
    (strconv.Itoa opts.PoolSize)
  let v := url.Values.setIf opts.Debug v "debug" (strconv.FormatBool opts.Debug)
  let v := url.Values.setIf opts.Secure v "secure" (strconv.FormatBool opts.Secure)
  let v := url.Values.setIf opts.NotSkipVerify v "skip_verify"
    (strconv.FormatBool (!opts.NotSkipVerify))
  v

/-- `Options.GetUrl`. -/
def Options.GetUrl (opts : Options) : String × Option GoError :=
  match opts.Hosts with
  | none => ("", some (errors.New "empty hosts"))
  | some [] => ("", some (errors.New "empty hosts"))
  | some (host :: _) =>
    let u : url.URL := { Scheme := "tcp", Host := host, RawQuery := opts.values.Encode }
    (u.toString, none)

/-- What `Options.Open` returned and did: the handle, the error, and the data source names it
passed to `sql.Open`. -/
structure OpenResult (V : Type) where
  db : Option (DB V)
  err : Option GoError
  opened : List String

/-- `Options.Open`.  `sqlOpen driverName dsn` stands for `sql.Open`; `db.Ping()` is a call
on the store.  When the ping fails the handle is closed and dropped, so that `db.Close()`
leaves no trace in the result. -/
def Options.Open {V : Type} (sqlOpen : String → String → Except GoError (DB V))
    (opts : Options) : OpenResult V :=
  match opts.GetUrl with
  | (_, some err) => ⟨none, some err, []⟩
  | (url, none) =>
    match sqlOpen "clickhouse" url with
    | Except.error err => ⟨none, some err, [url]⟩
    | Except.ok db =>
      match db.call Call.Ping with
      | (_, some err) => ⟨none, some err, [url]⟩
      | (db1, none) => ⟨some db1, none, [url]⟩

end batch_insert

/-! ## `batch.go` -/

namespace batch

/-- `OpenStrategyRandom`. -/
def OpenStrategyRandom : String := "random"

/-- `OpenStrategyInOrder`. -/
def OpenStrategyInOrder : String := "in_order"

/-- `ErrClosed`. -/
def ErrClosed : GoError := errors.New "batch insert is closed"

/-- `time.Second`, in nanoseconds. -/
def time.Second : Int := 1000000000

/-- The struct `options`, without the field `logger`: the calls of `logger.Log` are recorded
as `LogEntry` values in the observations. -/
structure options where
  host : String
  userName : String
  password : String
  database : String
  readTimeout : Int
  writeTimeOut : Int
  noDelay : Bool
  altHosts : String
  connectionOpenStrategy : String
  blockSize : Int
  poolSize : Int
  debug : Bool
  maxBatchSize : Int
  flushPeriod : Int
deriving DecidableEq, Repr

/-- `defaultOptions`. -/
def defaultOptions : options :=
  { host := "127.0.0.1:9000", userName := "", password := "", database := "",
    readTimeout := 0, writeTimeOut := 0, noDelay := true, altHosts := "",
    connectionOpenStrategy := OpenStrategyRandom, blockSize := 1000000, poolSize := 100,
    debug := false, maxBatchSize := 10000, flushPeriod := 1 * time.Second }

/-- The type `Option` of `batch.go` (`func(opt *options)`). -/
abbrev OptionFn := options → options

/-- `WithHost`. -/
def WithHost (host : String) : OptionFn := fun opt => { opt with host := host }

/-- `WithFlushPeriod`. -/
def WithFlushPeriod (flushPeriod : Int) : OptionFn :=
  fun opt => { opt with flushPeriod := flushPeriod }

/-- The function `GetUrl` of `batch.go`. -/
def GetUrl (opts : options) : String :=
  let v : url.Values := []
  let v := url.Values.setIf (decide (opts.userName ≠ "")) v "username" opts.userName
  let v := url.Values.setIf (decide (opts.password ≠ "")) v "password" opts.password
  let v := url.Values.setIf (decide (opts.database ≠ "")) v "database" opts.database
  let v := url.Values.setIf (decide (opts.readTimeout > 0)) v "read_timeout"
    (strconv.Itoa opts.readTimeout)
  let v := url.Values.setIf (decide (opts.writeTimeOut > 0)) v "write_timeout"
    (strconv.Itoa opts.writeTimeOut)
  let v := url.Values.setIf (!opts.noDelay) v "no_delay" "false"
  let v := url.Values.setIf (decide (opts.altHosts ≠ "")) v "alt_hosts" opts.altHosts
  let v := url.Values.setIf (decide (opts.connectionOpenStrategy ≠ OpenStrategyRandom)) v
    "connection_open_strategy" opts.connectionOpenStrategy
  let v := url.Values.setIf (decide (opts.blockSize ≠ 1000000)) v "block_size"
    (strconv.Itoa opts.blockSize)
  let v := url.Values.setIf (decide (opts.poolSize ≠ 100)) v "pool_size"
    (strconv.Itoa opts.poolSize)
  let v := url.Values.setIf opts.debug v "debug" "true"
  let u : url.URL := { Scheme := "tcp", Host := opts.host, RawQuery := v.Encode }
  u.toString

/-- The calls of `logger.Log` (the duration logged with `flushed` is left out). -/
inductive LogEntry where
  | openUrl (url : String)
  | flushError (err : GoError)
  | flushed (n : Nat)
  | flusherStop
deriving DecidableEq, Repr

/-- The struct `BatchInsert` of `batch.go`.  `wg` is the counter of the wait group.  The
channel `exit` is closed exactly when `exited` is set (both happen in the critical section of
`Close`, nowhere else), so it has no field of its own.  `kick` is unbuffered: its only state is
whether the flusher has closed it.  `woke` is the position of the flusher goroutine:
`none` while it is blocked in its `select` (or gone, when `wg = 0`), `some e` when it has left
the `select` with its local variable `exited = e` and has not yet taken the lock. -/
structure BatchInsert (V : Type) where
  opts : options
  wg : Nat
  db : DB V
  cache : List (List V)
  kickClosed : Bool
  insertSql : String
  exited : Bool
  woke : Option Bool

/-- What `New` returned and did. -/
structure NewResult (V : Type) where
  b : Option (BatchInsert V)
  err : Option GoError
  logged : List LogEntry
  opened : List String

/-- `New`.  `sqlOpen driverName dsn` stands for `sql.Open`.  When the ping fails the handle
is closed and dropped.  The goroutine started at the end is the flusher, blocked in its
`select`. -/
def New {V : Type} (sqlOpen : String → String → Except GoError (DB V)) (insertSql : String)
    (opts : List OptionFn) : NewResult V :=
  let options := opts.foldl (fun o opt => opt o) defaultOptions
  let url := GetUrl options
  match sqlOpen "clickhouse" url with
  | Except.error err => ⟨none, some err, [LogEntry.openUrl url], [url]⟩
  | Except.ok db =>
    match db.call Call.Ping with
    | (_, some err) => ⟨none, some err, [LogEntry.openUrl url], [url]⟩
    | (db1, none) =>
      ⟨some { opts := options, wg := 1, db := db1, cache := [], kickClosed := false,
              insertSql := insertSql, exited := false, woke := none },
        none, [LogEntry.openUrl url], [url]⟩

/-- The `select` with a send on `kick` and a `default` in `Insert`: the send goes through
only when the flusher is blocked in its `select` (it then leaves it through `case <-b.kick`);
a send on the closed channel panics (`none`). -/
def trySendKick {V : Type} (b : BatchInsert V) : Option (BatchInsert V) :=
  if b.kickClosed then none
  else if b.wg ≠ 0 ∧ b.woke = none then some { b with woke := some false }
  else some b

/-- `Insert` of `batch.go`; `none` is a panic. -/
def Insert {V : Type} (b : BatchInsert V) (values : List V) :
    Option (BatchInsert V × Option GoError) :=
  if b.exited then some (b, some ErrClosed)
  else
    let b1 := { b with cache := b.cache ++ [values] }
    if (b1.cache.length : Int) ≥ b1.opts.maxBatchSize then
      (trySendKick b1).map (fun b2 => (b2, none))
    else some (b1, none)

/-- `Close` of `batch.go` up to and including `b.mu.Unlock()`. -/
def Close {V : Type} (b : BatchInsert V) : BatchInsert V × CloseStatus :=
  if b.exited then (b, CloseStatus.returned none)
  else ({ b with exited := true }, CloseStatus.waiting)

/-- The rest of `Close`: `b.wg.Wait()` returns once the counter is 0, then
`return b.db.Close()`. -/
def CloseWait {V : Type} (b : BatchInsert V) : Option (BatchInsert V × Option GoError) :=
  if b.wg = 0 then some ({ b with db := (b.db.call Call.Close).1 }, (b.db.call Call.Close).2)
  else none

/-- `batchInsert` of `batch.go`. -/
def batchInsert {V : Type} (db : DB V) (insertSql : String) (values : List (List V)) :
    DB V × Option GoError :=
  batchInsertTx db insertSql values

/-- The cases of the flusher's `select` the flusher takes by itself (`case <-b.kick` is taken
together with the send in `Insert`). -/
inductive Wake where
  | ticker
  | exit
deriving DecidableEq, Repr

/-- The `select` of the flusher: the ticker case can always be taken, the exit case once
`exit` is closed. -/
def flusherSelect {V : Type} (b : BatchInsert V) (w : Wake) : Option (BatchInsert V) :=
  if b.wg = 0 ∨ b.woke ≠ none then none
  else match w with
    | Wake.ticker => some { b with woke := some false }
    | Wake.exit => if b.exited then some { b with woke := some true } else none

/-- What one iteration of the flusher loop of `batch.go` did. -/
structure CycleObs (V : Type) where
  handed : Option (List (List V))
  result : Option GoError
  logged : List LogEntry
  stopped : Bool
deriving DecidableEq, Repr

/-- One iteration of the flusher loop after the `select`, with the local `exited`. -/
def flusherBody {V : Type} (b : BatchInsert V) (exited : Bool) : BatchInsert V × CycleObs V :=
  let l := b.cache
  let b1 := { b with cache := [], woke := none }
  if l.length > 0 then
    let r := batchInsert b1.db b1.insertSql l
    let b2 := { b1 with db := r.1 }
    let logged := match r.2 with
      | some err => [LogEntry.flushError err]
      | none => [LogEntry.flushed l.length]
    if exited then
      ({ b2 with kickClosed := true, wg := b2.wg - 1 },
        ⟨some l, r.2, logged ++ [LogEntry.flusherStop], true⟩)
    else (b2, ⟨some l, r.2, logged, false⟩)
  else
    if exited then
      ({ b1 with kickClosed := true, wg := b1.wg - 1 }, ⟨none, none, [LogEntry.flusherStop], true⟩)
    else (b1, ⟨none, none, [], false⟩)

/-- The atomic steps of a run. -/
inductive Action (V : Type) where
  | insert (values : List V)
  | wake (w : Wake)
  | body
  | close
  | closeWait
deriving DecidableEq, Repr

/-- What a step showed to the outside. -/
inductive Obs (V : Type) where
  | insert (err : Option GoError)
  | wake
  | body (o : CycleObs V)
  | close (st : CloseStatus)
  | closeWait (err : Option GoError)
deriving DecidableEq, Repr

/-- One step; `none` when the step cannot be taken in this state (or panics). -/
def step {V : Type} (b : BatchInsert V) : Action V → Option (BatchInsert V × Obs V)
  | Action.insert values => (Insert b values).map (fun r => (r.1, Obs.insert r.2))
  | Action.wake w => (flusherSelect b w).map (fun b1 => (b1, Obs.wake))
  | Action.body =>
    match b.woke with
    | some exited => some ((flusherBody b exited).1, Obs.body (flusherBody b exited).2)
    | none => none
  | Action.close => some ((Close b).1, Obs.close (Close b).2)
  | Action.closeWait => (CloseWait b).map (fun r => (r.1, Obs.closeWait r.2))

/-- A run: the steps taken one after the other, with their observations in order. -/
def run {V : Type} (b : BatchInsert V) : List (Action V) → Option (BatchInsert V × List (Obs V))
  | [] => some (b, [])
  | a :: rest =>
    match step b a with
    | none => none
    | some (b1, o) =>
      match run b1 rest with
      | none => none
      | some (b2, os) => some (b2, o :: os)

/-- The batches passed to `batchInsert` during a run, in order. -/
def flushed {V : Type} : List (Obs V) → List (List (List V))
  | [] => []
  | Obs.body o :: rest => o.handed.toList ++ flushed rest
  | _ :: rest => flushed rest

end batch

/-- The calls a `batchInsert` added to the log of the store. -/
def newCalls {V : Type} (before after : DB V) : List (Call V) :=
  after.log.drop before.log.length

/-- The outcome of the `Exec` of the record at position `k` of a batch, when `Begin`,
`Prepare` and the `Exec` calls of the records before it have been made. -/
def execOutcome {V : Type} (db : DB V) (sqlStr : String) (values : List (List V)) (k : Nat) :
    Option GoError :=
  db.respond (db.log ++ [Call.Begin, Call.Prepare sqlStr] ++ (values.take k).map Call.Exec)
    (Call.Exec (values.getD k []))

/-- The outcome of `Commit` after `Begin`, `Prepare` and the `Exec` of every record. -/
def commitOutcome {V : Type} (db : DB V) (sqlStr : String) (values : List (List V)) :
    Option GoError :=
  db.respond (db.log ++ [Call.Begin, Call.Prepare sqlStr] ++ values.map Call.Exec) Call.Commit

/-- Is the call a `Prepare`? -/
def Call.isPrepare {V : Type} : Call V → Bool
  | Call.Prepare _ => true
  | _ => false

/-- Is the call a `Commit`? -/
def Call.isCommit {V : Type} : Call V → Bool
  | Call.Commit => true
  | _ => false

/-- Is the call a `Rollback`? -/
def Call.isRollback {V : Type} : Call V → Bool
  | Call.Rollback => true
  | _ => false

/-- Is the call an `Exec`? -/
def Call.isExec {V : Type} : Call V → Bool
  | Call.Exec _ => true
  | _ => false

/-- The properties of a state of `batch_insert.go` that hold as long as `Close` has not been
called: open, flusher alive, `kick` of capacity 1 holding at most one signal. -/
def batch_insert.OpenState {V : Type} (b : batch_insert.BatchInsert V) : Prop :=
  b.closed = false ∧ b.wg = 1 ∧ b.kick.cap = 1 ∧ b.kick.len ≤ 1

/-! ## The connection string as the specification describes it -/

/-- A query parameter that is present iff `set` holds. -/
def param (set : Bool) (key value : String) : List (String × String) :=
  if set then [(key, value)] else []

/-- The specification's list of query parameters of `Options.GetUrl`, in ascending key
order: one entry per field that is set. -/
def batch_insert.Options.expectedParams (opts : batch_insert.Options) :
    List (String × String) :=
  param (decide (batch_insert.len opts.Hosts > 1)) "alt_hosts"
    (",".intercalate ((opts.Hosts.getD []).drop 1)) ++
  (param (decide (opts.BlockSize > 0)) "block_size" (strconv.Itoa opts.BlockSize) ++
  (param (decide (opts.Database ≠ "")) "database" opts.Database ++
  (param opts.Debug "debug" "true" ++
  (param opts.Delay "no_delay" "false" ++
  (param (decide (opts.Password ≠ "")) "password" opts.Password ++
  (param (decide (opts.PoolSize > 0)) "pool_size" (strconv.Itoa opts.PoolSize) ++
  (param (decide (opts.ReadTimeout > 0)) "read_timeout" (strconv.Itoa opts.ReadTimeout) ++
  (param opts.Secure "secure" "true" ++
  (param opts.NotSkipVerify "skip_verify" "false" ++
  (param (decide (opts.UserName ≠ "")) "username" opts.UserName ++
  (param (decide (opts.WriteTimeOut > 0)) "write_timeout" (strconv.Itoa opts.WriteTimeOut) ++
    [])))))))))))

/-- The specification's connection string for the first host `host`: `tcp://` and the host,
then, only when at least one parameter is set, `?` and the parameters as `key=value` joined
by `&`, keys and values query-escaped. -/
def batch_insert.Options.expectedUrl (opts : batch_insert.Options) (host : String) : String :=
  "tcp://" ++ host ++
    (if opts.expectedParams.isEmpty then ""
     else "?" ++ "&".intercalate
      (opts.expectedParams.map fun p => url.QueryEscape p.1 ++ "=" ++ url.QueryEscape p.2))

/-- A host that `URL.String` writes as it is: not empty, and made of ASCII characters that
`shouldEscape` keeps in a host. -/
def hostSafe (host : String) : Bool :=
  host ≠ "" && host.data.all fun c => c.toNat < 128 && !url.shouldEscape c url.encoding.encodeHost

/-- The parameters of `Options.GetUrl` in the order of its `v.Set` calls. -/
def batch_insert.Options.codeParams (opts : batch_insert.Options) : List (String × String) :=
  param (decide (opts.UserName ≠ "")) "username" opts.UserName ++
  (param (decide (opts.Password ≠ "")) "password" opts.Password ++
  (param (decide (opts.Database ≠ "")) "database" opts.Database ++
  (param (decide (opts.ReadTimeout > 0)) "read_timeout" (strconv.Itoa opts.ReadTimeout) ++
  (param (decide (opts.WriteTimeOut > 0)) "write_timeout" (strconv.Itoa opts.WriteTimeOut) ++
  (param opts.Delay "no_delay" "false" ++
  (param (decide (batch_insert.len opts.Hosts > 1)) "alt_hosts"
    (",".intercalate ((opts.Hosts.getD []).drop 1)) ++
  (param (decide (opts.BlockSize > 0)) "block_size" (strconv.Itoa opts.BlockSize) ++
  (param (decide (opts.PoolSize > 0)) "pool_size" (strconv.Itoa opts.PoolSize) ++
  (param opts.Debug "debug" "true" ++
  (param opts.Secure "secure" "true" ++
  (param opts.NotSkipVerify "skip_verify" "false" ++ [])))))))))))

/-- The keys of `Options.GetUrl` in ascending order. -/
def sortedKeys : List String :=
  ["alt_hosts", "block_size", "database", "debug", "no_delay", "password", "pool_size",
    "read_timeout", "secure", "skip_verify", "username", "write_timeout"]

/-- The keys of `Options.GetUrl` in the order of its `v.Set` calls. -/
def codeKeys : List String :=
  ["username", "password", "database", "read_timeout", "write_timeout", "no_delay",
    "alt_hosts", "block_size", "pool_size", "debug", "secure", "skip_verify"]

/-- The map entry `Values.Set` stores for a parameter. -/
def toEntry (p : String × String) : String × List String := (p.1, [p.2])

/-- The `Options` of the second case of `TestOptions_GetUrl`. -/
def testOptions : batch_insert.Options :=
  { UserName := "user", Password := "pwd", Database := "db", ReadTimeout := 4,
    WriteTimeOut := 3, Delay := true,
    Hosts := some ["127.0.0.1:9000", "127.0.0.1:9001", "127.0.0.1:9002"],
    BlockSize := 2, PoolSize := 1, Debug := true, Secure := true, NotSkipVerify := true }

/-- `Options` with the single host `host` and nothing else. -/
def hostOnly (host : String) : batch_insert.Options :=
  { UserName := "", Password := "", Database := "", ReadTimeout := 0, WriteTimeOut := 0,
    Delay := false, Hosts := some [host], BlockSize := 0, PoolSize := 0, Debug := false,
    Secure := false, NotSkipVerify := false }

/-- The calls of one successful transaction of `batchInsert` for a batch. -/
def txCalls {V : Type} (sqlStr : String) (values : List (List V)) : List (Call V) :=
  [Call.Begin, Call.Prepare sqlStr] ++ values.map Call.Exec ++ [Call.Commit, Call.StmtClose]

/-- Every `batchInsert` call of a run of `batch_insert.go` returned nil, that is, every commit
succeeded. -/
def batch_insert.allCommitsSucceed {V : Type} : List (batch_insert.Obs V) → Bool
  | [] => true
  | batch_insert.Obs.cycle o :: rest => o.result.isNone && allCommitsSucceed rest
  | _ :: rest => allCommitsSucceed rest

/-! ## Concrete stores used to evaluate the definitions -/

/-- A store on which every call succeeds. -/
def okStore : DB Nat := ⟨fun _ _ => none, []⟩

/-- A `sql.Open` that always hands out `okStore`. -/
def okOpen : String → String → Except GoError (DB Nat) := fun _ _ => Except.ok okStore

/-- A store on which `Begin` fails and every other call succeeds. -/
def noBeginStore : DB Nat :=
  ⟨fun _ c => if c = Call.Begin then some (errors.New "begin failed") else none, []⟩

/-- A store on which the `Exec` of the record `[2]` fails and every other call succeeds. -/
def badRowStore : DB Nat :=
  ⟨fun _ c => if c = Call.Exec [2] then some (errors.New "bad row") else none, []⟩

/-- C3 (rejection after close): on an engine whose closed flag is set, `Insert` returns the
closed error (`ErrClosed` for the engine of `batch.go`) and the whole state, in particular
the buffer, the pending flush signal and the closed flag, is what it was. -/
theorem insert_after_close_rejected {V : Type} (a : batch_insert.BatchInsert V)
    (b : batch.BatchInsert V) (values : List V)
    (ha : a.closed = true) (hb : b.exited = true) :
    batch_insert.Insert a values = (a, some (errors.New "batch insert closed")) ∧
    batch.Insert b values = some (b, some batch.ErrClosed) := by
  constructor
  · simp [batch_insert.Insert, ha]
  · simp [batch.Insert, hb]

/-- Witness of C3: an engine of each kind, closed by `Close`, rejects the record `[7]`. -/
theorem insert_after_close_rejected_witness :
    ((batch_insert.Close (batch_insert.NewBatchInsert (some okStore) "q" [])).1.closed = true ∧
      (batch.Close (⟨batch.defaultOptions, 1, okStore, [[1]], false, "q", false, none⟩ :
        batch.BatchInsert Nat)).1.exited = true) ∧
    (batch_insert.Insert
        (batch_insert.Close (batch_insert.NewBatchInsert (some okStore) "q" [])).1 [7] =
      ((batch_insert.Close (batch_insert.NewBatchInsert (some okStore) "q" [])).1,
        some (errors.New "batch insert closed")) ∧
     batch.Insert (batch.Close (⟨batch.defaultOptions, 1, okStore, [[1]], false, "q", false,
        none⟩ : batch.BatchInsert Nat)).1 [7] =
      some ((batch.Close (⟨batch.defaultOptions, 1, okStore, [[1]], false, "q", false,
        none⟩ : batch.BatchInsert Nat)).1, some batch.ErrClosed)) :=
  ⟨⟨rfl, rfl⟩, insert_after_close_rejected _ _ [7] rfl rfl⟩

/-- C4 (idempotent close): `Close` on an engine that is already closed returns nil and leaves
the whole state as it was (closed flag, buffer, flush signal, exit signal), so a second
`Close` after a first one returns nil at once and the state is that after the first. -/
theorem close_idempotent {V : Type} (a : batch_insert.BatchInsert V)
    (b : batch.BatchInsert V) :
    (a.closed = true → batch_insert.Close a = (a, CloseStatus.returned none)) ∧
    (b.exited = true → batch.Close b = (b, CloseStatus.returned none)) ∧
    batch_insert.Close (batch_insert.Close a).1 =
      ((batch_insert.Close a).1, CloseStatus.returned none) ∧
    batch.Close (batch.Close b).1 = ((batch.Close b).1, CloseStatus.returned none) := by
  refine ⟨?_, ?_, ?_, ?_⟩
  · intro h
    simp [batch_insert.Close, h]
  · intro h
    simp [batch.Close, h]
  · by_cases h : a.closed = true
    · simp [batch_insert.Close, h]
    · simp [batch_insert.Close, batch_insert.kickFlush, h]
      split <;> simp
  · by_cases h : b.exited = true
    · simp [batch.Close, h]
    · simp [batch.Close, h]

/-- Witness of C4: closing twice a fresh engine of `batch_insert.go` that holds no record. -/
theorem close_idempotent_witness :
    (batch_insert.Close (batch_insert.NewBatchInsert (some okStore) "q" [])).1.closed = true ∧
    batch_insert.Close (batch_insert.Close (batch_insert.NewBatchInsert (some okStore) "q" [])).1
      = ((batch_insert.Close (batch_insert.NewBatchInsert (some okStore) "q" [])).1,
          CloseStatus.returned none) :=
  ⟨rfl, (close_idempotent
    (batch_insert.Close (batch_insert.NewBatchInsert (some okStore) "q" [])).1
    (⟨batch.defaultOptions, 1, okStore, [], false, "q", true, none⟩ :
      batch.BatchInsert Nat)).1 rfl⟩

/-- C9 (append postcondition and threshold signal): on an open engine of `batch_insert.go`
whose `kick` channel has capacity 1, `Insert` returns nil, the buffer becomes the old buffer
followed by the record (one longer), the closed flag and all other fields stay, the flush
signal is pending afterwards iff it was pending or the new length reaches `maxCache`, and at
most one signal is pending.  With threshold 3, three records `x`, `y`, `z` leave the buffer
`[x, y, z]` with the signal pending after the third `Insert` and not before. -/
theorem insert_appends_and_kicks {V : Type} (b : batch_insert.BatchInsert V) (values : List V)
    (hopen : b.closed = false) (hcap : b.kick.cap = 1) (hlen : b.kick.len ≤ 1) :
    (batch_insert.Insert b values).2 = none ∧
    (batch_insert.Insert b values).1.cache = b.cache ++ [values] ∧
    (batch_insert.Insert b values).1.cache.length = b.cache.length + 1 ∧
    (batch_insert.Insert b values).1.closed = false ∧
    (1 ≤ (batch_insert.Insert b values).1.kick.len ↔
      (1 ≤ b.kick.len ∨ ((b.cache.length : Int) + 1 ≥ b.maxCache))) ∧
    (batch_insert.Insert b values).1.kick.len ≤ 1 ∧
    (batch_insert.Insert b values).1.kick.cap = 1 ∧
    (batch_insert.Insert b values).1.maxCache = b.maxCache ∧
    (batch_insert.Insert b values).1.wg = b.wg ∧
    (batch_insert.Insert b values).1.sqlStr = b.sqlStr ∧
    (batch_insert.Insert b values).1.db = b.db ∧
    (∀ (db : Option (DB V)) (x y z : List V),
      let b0 := batch_insert.NewBatchInsert db "" [batch_insert.WithMaxCache 3]
      let b1 := (batch_insert.Insert b0 x).1
      let b2 := (batch_insert.Insert b1 y).1
      let b3 := (batch_insert.Insert b2 z).1
      b0.kick.len = 0 ∧ b1.kick.len = 0 ∧ b2.kick.len = 0 ∧ b3.kick.len = 1 ∧
        b3.cache = [x, y, z]) := by
  have hl : b.kick.len = 0 ∨ b.kick.len = 1 := by omega
  by_cases hthr : (b.cache.length : Int) + 1 ≥ b.maxCache
  · rcases hl with h0 | h1
    · simp [batch_insert.Insert, batch_insert.kickFlush, batch_insert.NewBatchInsert,
        batch_insert.WithMaxCache, hopen, hcap, hthr, h0]
    · simp [batch_insert.Insert, batch_insert.kickFlush, batch_insert.NewBatchInsert,
        batch_insert.WithMaxCache, hopen, hcap, hthr, h1]
  · have hthr2 : ¬ (b.maxCache ≤ (b.cache.length : Int) + 1) := hthr
    rcases hl with h0 | h1
    · simp [batch_insert.Insert, batch_insert.kickFlush, batch_insert.NewBatchInsert,
        batch_insert.WithMaxCache, hopen, hcap, hthr2, h0]
    · simp [batch_insert.Insert, batch_insert.kickFlush, batch_insert.NewBatchInsert,
        batch_insert.WithMaxCache, hopen, hcap, hthr2, h1]

/-- Witness of C9: the first `Insert` into a fresh engine with threshold 3. -/
theorem insert_appends_and_kicks_witness :
    ((batch_insert.NewBatchInsert (some okStore) "q" [batch_insert.WithMaxCache 3]).closed
        = false ∧
      (batch_insert.NewBatchInsert (some okStore) "q" [batch_insert.WithMaxCache 3]).kick.cap
        = 1 ∧
      (batch_insert.NewBatchInsert (some okStore) "q" [batch_insert.WithMaxCache 3]).kick.len
        ≤ 1) ∧
    (batch_insert.Insert
      (batch_insert.NewBatchInsert (some okStore) "q" [batch_insert.WithMaxCache 3]) [5]).1.cache
      = [] ++ [[5]] :=
  ⟨⟨rfl, rfl, by decide⟩,
    (insert_appends_and_kicks
      (batch_insert.NewBatchInsert (some okStore) "q" [batch_insert.WithMaxCache 3]) [5]
      rfl rfl (by decide)).2.1⟩

/-- C10 (no zero-record commit): in both engines one iteration of the flusher loop calls
`batchInsert` iff the buffer is not empty when the lock is taken, it then passes exactly that
buffer, and the buffer of the engine is empty afterwards in either case; with an empty buffer
the store is not touched. -/
theorem flusher_skips_empty_buffer {V : Type} (a : batch_insert.BatchInsert V)
    (b : batch.BatchInsert V) (exited : Bool) :
    (batch_insert.flusherBody a).2.handed = (if a.cache.isEmpty then none else some a.cache) ∧
    (((batch_insert.flusherBody a).2.handed).isSome = true ↔ a.cache ≠ []) ∧
    (batch_insert.flusherBody a).1.cache = [] ∧
    (a.cache = [] → (batch_insert.flusherBody a).1.db = a.db) ∧
    (a.cache ≠ [] → (batch_insert.flusherBody a).1.db
        = (batch_insert.batchInsert a.db a.sqlStr a.cache).1) ∧
    (batch.flusherBody b exited).2.handed = (if b.cache.isEmpty then none else some b.cache) ∧
    (((batch.flusherBody b exited).2.handed).isSome = true ↔ b.cache ≠ []) ∧
    (batch.flusherBody b exited).1.cache = [] ∧
    (b.cache = [] → (batch.flusherBody b exited).1.db = b.db) ∧
    (b.cache ≠ [] → (batch.flusherBody b exited).1.db
        = (batch.batchInsert b.db b.insertSql b.cache).1) := by
  by_cases ha : a.cache = [] <;> by_cases hb : b.cache = [] <;>
    by_cases hc : a.closed = true <;> cases exited <;>
    simp [batch_insert.flusherBody, batch.flusherBody, ha, hb, hc, List.length_pos]

/-- Witness of C10: a cycle on an engine of `batch_insert.go` holding one record hands that
record to `batchInsert`, which writes it to the store. -/
theorem flusher_skips_empty_buffer_witness :
    (batch_insert.Insert (batch_insert.NewBatchInsert (some okStore) "q" []) [5]).1.cache ≠ [] ∧
    ((batch_insert.flusherBody
      (batch_insert.Insert (batch_insert.NewBatchInsert (some okStore) "q" []) [5]).1).1.db
      = (batch_insert.batchInsert (some okStore) "q" [[5]]).1) :=
  ⟨by decide, (flusher_skips_empty_buffer
    (batch_insert.Insert (batch_insert.NewBatchInsert (some okStore) "q" []) [5]).1
    (⟨batch.defaultOptions, 1, okStore, [], false, "q", true, none⟩ : batch.BatchInsert Nat)
    false).2.2.2.2.1 (by decide)⟩

/-- C6, as the claim states it, fails: the engine `New` builds with no options has a size
threshold of 10000, not 1000000. -/
theorem defaults_New_counterexample :
    ∃ b, (batch.New okOpen "q" []).b = some b ∧ b.opts.maxBatchSize = 10000 ∧
      b.opts.maxBatchSize ≠ 1000000 :=
  ⟨_, rfl, rfl, by decide⟩

/-- C6 (defaults), amended: an engine built by `NewBatchInsert` with no options has a size
threshold of 1000000 records and its flusher timer is set to one second; an engine built by
`New` with no options has a size threshold of 10000 records and a flush period of one
second (10^9 nanoseconds). -/
theorem defaults {V : Type} (db : Option (DB V)) (sql : String)
    (sqlOpen : String → String → Except GoError (DB V)) (b : batch.BatchInsert V)
    (hnew : (batch.New sqlOpen sql []).b = some b) :
    (batch_insert.NewBatchInsert db sql []).maxCache = 1000000 ∧
    batch_insert.flusherTimerPeriod = 1000000000 ∧
    b.opts.maxBatchSize = 10000 ∧
    b.opts.flushPeriod = 1000000000 := by
  refine ⟨rfl, rfl, ?_, ?_⟩
  · simp only [batch.New, List.foldl_nil] at hnew
    split at hnew
    · simp at hnew
    · split at hnew
      · simp at hnew
      · simp at hnew
        rw [← hnew]
        rfl
  · simp only [batch.New, List.foldl_nil] at hnew
    split at hnew
    · simp at hnew
    · split at hnew
      · simp at hnew
      · simp at hnew
        rw [← hnew]
        rfl

/-- Witness of C6: the defaults of the two constructors over a store that accepts every
call. -/
theorem defaults_witness :
    (∃ b, (batch.New okOpen "q" []).b = some b) ∧
    (batch_insert.NewBatchInsert (some okStore) "q" []).maxCache = 1000000 :=
  ⟨⟨_, rfl⟩, (defaults (some okStore) "q" okOpen _ rfl).1⟩

/-- C8 (invalid configuration): `Options.GetUrl` returns an error iff `Hosts` is nil or
empty, the URL it returns with the error is empty, and `Options.Open` then returns that
same error and no handle, without calling `sql.Open`. -/
theorem empty_hosts_rejected {V : Type} (opts : batch_insert.Options)
    (sqlOpen : String → String → Except GoError (DB V)) :
    (opts.GetUrl.2 ≠ none ↔ (opts.Hosts = none ∨ opts.Hosts = some [])) ∧
    (opts.GetUrl.2 ≠ none ↔ batch_insert.len opts.Hosts = 0) ∧
    (opts.GetUrl.2 ≠ none → opts.GetUrl = ("", some (errors.New "empty hosts"))) ∧
    (opts.GetUrl.2 ≠ none →
      (batch_insert.Options.Open sqlOpen opts).err = opts.GetUrl.2 ∧
      (batch_insert.Options.Open sqlOpen opts).db.isNone = true ∧
      (batch_insert.Options.Open sqlOpen opts).opened = []) := by
  rcases h : opts.Hosts with _ | hosts
  · simp [batch_insert.Options.GetUrl, batch_insert.Options.Open, batch_insert.len, h]
  · cases hosts with
    | nil => simp [batch_insert.Options.GetUrl, batch_insert.Options.Open, batch_insert.len, h]
    | cons host rest =>
      simp [batch_insert.Options.GetUrl, batch_insert.Options.Open, batch_insert.len, h]

/-- Witness of C8: `Options` with a nil `Hosts`. -/
theorem empty_hosts_rejected_witness :
    (batch_insert.Options.GetUrl ⟨"u", "", "", 0, 0, false, none, 0, 0, false, false, false⟩).2
      ≠ none ∧
    (batch_insert.Options.Open okOpen
      ⟨"u", "", "", 0, 0, false, none, 0, 0, false, false, false⟩).opened = [] :=
  ⟨by decide, ((empty_hosts_rejected
    ⟨"u", "", "", 0, 0, false, none, 0, 0, false, false, false⟩ okOpen).2.2.2
      (by decide)).2.2⟩

/-- The `Exec` loop when every `Exec` succeeds: all records are executed, in order. -/
theorem execAll_all_ok {V : Type} (values : List (List V)) (db : DB V)
    (h : ∀ k, k < values.length →
      db.respond (db.log ++ (values.take k).map Call.Exec) (Call.Exec (values.getD k [])) = none) :
    execAll db values = (⟨db.respond, db.log ++ values.map Call.Exec⟩, none) := by
  induction values generalizing db with
  | nil => simp [execAll]
  | cons v rest ih =>
    have h0 := h 0 (by simp)
    simp at h0
    have hrest := ih ⟨db.respond, db.log ++ [Call.Exec v]⟩ (by
      intro k hk
      have := h (k + 1) (by simpa using hk)
      simpa using this)
    simp [execAll, DB.call, h0, hrest]

/-- The `Exec` loop when the record at position `k` is the first whose `Exec` fails: the
records up to and including it are executed, in order, and its error is returned. -/
theorem execAll_first_failure {V : Type} (values : List (List V)) (db : DB V) (k : Nat)
    (e : GoError) (hk : k < values.length)
    (hbefore : ∀ j, j < k →
      db.respond (db.log ++ (values.take j).map Call.Exec) (Call.Exec (values.getD j [])) = none)
    (hfail :
      db.respond (db.log ++ (values.take k).map Call.Exec) (Call.Exec (values.getD k []))
        = some e) :
    execAll db values = (⟨db.respond, db.log ++ (values.take (k + 1)).map Call.Exec⟩, some e) := by
  induction values generalizing db k with
  | nil => simp at hk
  | cons v rest ih =>
    cases k with
    | zero =>
      simp at hfail
      simp [execAll, DB.call, hfail]
    | succ k =>
      have h0 := hbefore 0 (by omega)
      simp at h0
      have hrest := ih ⟨db.respond, db.log ++ [Call.Exec v]⟩ k (by simpa using hk)
        (by
          intro j hj
          have := hbefore (j + 1) (by omega)
          simpa using this)
        (by simpa using hfail)
      simp [execAll, DB.call, h0, hrest]

/-- No `Exec` call is a `Prepare`, a `Commit` or a `Rollback`. -/
theorem countP_map_Exec {V : Type} (l : List (List V)) :
    (l.map Call.Exec).countP Call.isPrepare = 0 ∧
    (l.map Call.Exec).countP Call.isCommit = 0 ∧
    (l.map Call.Exec).countP Call.isRollback = 0 ∧
    (l.map Call.Exec).filter Call.isExec = l.map Call.Exec := by
  induction l with
  | nil => simp
  | cons v rest ih =>
    obtain ⟨h1, h2, h3, h4⟩ := ih
    simp [List.countP_cons, Call.isPrepare, Call.isCommit, Call.isRollback, Call.isExec,
      h1, h2, h3, h4]

/-- C5, as the claim states it, fails: on a store whose `Begin` fails, `batchInsert` of a
batch of one record makes no `Prepare` and no `Exec` call, and although no `Exec` failed it
makes no `Commit` call. -/
theorem batchInsert_begin_fails_counterexample :
    (newCalls noBeginStore (batch.batchInsert noBeginStore "q" [[1]]).1) = [Call.Begin] ∧
    (newCalls noBeginStore (batch.batchInsert noBeginStore "q" [[1]]).1).countP Call.isPrepare
      ≠ 1 ∧
    (newCalls noBeginStore (batch.batchInsert noBeginStore "q" [[1]]).1).filter Call.isExec
      ≠ [Call.Exec [1]] ∧
    (∀ k, k < 1 → execOutcome noBeginStore "q" [[1]] k = none) ∧
    (newCalls noBeginStore (batch.batchInsert noBeginStore "q" [[1]]).1).countP Call.isCommit
      ≠ 1 ∧
    (batch.batchInsert noBeginStore "q" [[1]]).2 = some (errors.New "begin failed") := by
  refine ⟨by decide, by decide, by decide, ?_, by decide, by decide⟩
  intro k hk
  have : k = 0 := by omega
  subst this
  decide

/-- C5 (all-or-nothing commit), amended: `batchInsert` first calls `Begin`; if that fails it
returns its error and calls nothing else; it then calls `Prepare` once; if that fails it
rolls back and returns its error with no `Exec` and no `Commit`.  When `Begin` and `Prepare`
succeed it calls `Exec` once per record in batch order, stopping at the first failing
`Exec`: if an `Exec` fails, `Rollback` is invoked, `Commit` is never invoked and that
`Exec`'s error is returned; if every `Exec` succeeds, `Commit` is invoked exactly once and
its result is returned.  The two files agree on a non-nil store. -/
theorem batchInsert_all_or_nothing {V : Type} (db : DB V) (sqlStr : String)
    (values : List (List V)) :
    batch_insert.batchInsert (some db) sqlStr values =
      (some (batch.batchInsert db sqlStr values).1, (batch.batchInsert db sqlStr values).2) ∧
    (∀ e, db.respond db.log Call.Begin = some e →
      (batch.batchInsert db sqlStr values).2 = some e ∧
      newCalls db (batch.batchInsert db sqlStr values).1 = [Call.Begin]) ∧
    (∀ e, db.respond db.log Call.Begin = none →
      db.respond (db.log ++ [Call.Begin]) (Call.Prepare sqlStr) = some e →
      (batch.batchInsert db sqlStr values).2 = some e ∧
      newCalls db (batch.batchInsert db sqlStr values).1 =
        [Call.Begin, Call.Prepare sqlStr, Call.Rollback]) ∧
    (db.respond db.log Call.Begin = none →
      db.respond (db.log ++ [Call.Begin]) (Call.Prepare sqlStr) = none →
      (∀ k e, k < values.length → (∀ j, j < k → execOutcome db sqlStr values j = none) →
        execOutcome db sqlStr values k = some e →
        (batch.batchInsert db sqlStr values).2 = some e ∧
        newCalls db (batch.batchInsert db sqlStr values).1 =
          [Call.Begin, Call.Prepare sqlStr] ++ (values.take (k + 1)).map Call.Exec ++
            [Call.StmtClose, Call.Rollback] ∧
        (newCalls db (batch.batchInsert db sqlStr values).1).countP Call.isPrepare = 1 ∧
        (newCalls db (batch.batchInsert db sqlStr values).1).filter Call.isExec =
          (values.take (k + 1)).map Call.Exec ∧
        (newCalls db (batch.batchInsert db sqlStr values).1).countP Call.isRollback = 1 ∧
        (newCalls db (batch.batchInsert db sqlStr values).1).countP Call.isCommit = 0) ∧
      ((∀ k, k < values.length → execOutcome db sqlStr values k = none) →
        (batch.batchInsert db sqlStr values).2 = commitOutcome db sqlStr values ∧
        newCalls db (batch.batchInsert db sqlStr values).1 =
          [Call.Begin, Call.Prepare sqlStr] ++ values.map Call.Exec ++
            [Call.Commit, Call.StmtClose] ++
            (if (commitOutcome db sqlStr values).isSome then [Call.Rollback] else []) ∧
        (newCalls db (batch.batchInsert db sqlStr values).1).countP Call.isPrepare = 1 ∧
        (newCalls db (batch.batchInsert db sqlStr values).1).filter Call.isExec =
          values.map Call.Exec ∧
        (newCalls db (batch.batchInsert db sqlStr values).1).countP Call.isCommit = 1)) := by
  refine ⟨rfl, ?_, ?_, ?_⟩
  · intro e hB
    simp [batch.batchInsert, batchInsertTx, DB.call, hB, newCalls]
  · intro e hB hP
    simp [batch.batchInsert, batchInsertTx, DB.call, hB, hP, newCalls]
  · intro hB hP
    constructor
    · intro k e hk hbefore hfail
      have hx := execAll_first_failure values
        ⟨db.respond, db.log ++ [Call.Begin, Call.Prepare sqlStr]⟩ k e hk
        (by
          intro j hj
          have := hbefore j hj
          simpa [execOutcome] using this)
        (by simpa [execOutcome] using hfail)
      obtain ⟨c1, c2, c3, c4⟩ := countP_map_Exec (values.take (k + 1))
      have hcalls : newCalls db (batch.batchInsert db sqlStr values).1 =
          [Call.Begin, Call.Prepare sqlStr] ++ (values.take (k + 1)).map Call.Exec ++
            [Call.StmtClose, Call.Rollback] := by
        simp [batch.batchInsert, batchInsertTx, DB.call, hB, hP, newCalls, hx]
      refine ⟨?_, hcalls, ?_, ?_, ?_, ?_⟩
      · simp [batch.batchInsert, batchInsertTx, DB.call, hB, hP, hx]
      · rw [hcalls]
        simp only [List.countP_append, c1]
        simp [List.countP_cons, Call.isPrepare]
      · rw [hcalls]
        simp only [List.filter_append, c4]
        simp [List.filter_cons, Call.isExec]
      · rw [hcalls]
        simp only [List.countP_append, c3]
        simp [List.countP_cons, Call.isRollback]
      · rw [hcalls]
        simp only [List.countP_append, c2]
        simp [List.countP_cons, Call.isCommit]
    · intro hall
      have hx := execAll_all_ok values
        ⟨db.respond, db.log ++ [Call.Begin, Call.Prepare sqlStr]⟩
        (by
          intro k hk
          have := hall k hk
          simpa [execOutcome] using this)
      obtain ⟨c1, c2, c3, c4⟩ := countP_map_Exec values
      have hcalls : newCalls db (batch.batchInsert db sqlStr values).1 =
          [Call.Begin, Call.Prepare sqlStr] ++ values.map Call.Exec ++
            [Call.Commit, Call.StmtClose] ++
            (if (commitOutcome db sqlStr values).isSome then [Call.Rollback] else []) := by
        cases hc : commitOutcome db sqlStr values with
        | none =>
          have hc2 := hc
          simp [commitOutcome] at hc2
          simp [batch.batchInsert, batchInsertTx, DB.call, hB, hP, newCalls, hx, hc2]
        | some e =>
          have hc2 := hc
          simp [commitOutcome] at hc2
          simp [batch.batchInsert, batchInsertTx, DB.call, hB, hP, newCalls, hx, hc2]
      refine ⟨?_, hcalls, ?_, ?_, ?_⟩
      · cases hc : commitOutcome db sqlStr values with
        | none =>
          have hc2 := hc
          simp [commitOutcome] at hc2
          simp [batch.batchInsert, batchInsertTx, DB.call, hB, hP, hx, hc2]
        | some e =>
          have hc2 := hc
          simp [commitOutcome] at hc2
          simp [batch.batchInsert, batchInsertTx, DB.call, hB, hP, hx, hc2]
      · rw [hcalls]
        simp only [List.countP_append, c1]
        split <;> simp [List.countP_cons, Call.isPrepare]
      · rw [hcalls]
        simp only [List.filter_append, c4]
        split <;> simp [List.filter_cons, Call.isExec]
      · rw [hcalls]
        simp only [List.countP_append, c2]
        split <;> simp [List.countP_cons, Call.isCommit]

/-- Witness of C5: on a store that rejects the record `[2]`, the batch `[[1], [2], [3]]`
is executed up to `[2]`, rolled back, never committed, and the error of that `Exec` is
returned. -/
theorem batchInsert_all_or_nothing_witness :
    (badRowStore.respond badRowStore.log Call.Begin = none ∧
      badRowStore.respond (badRowStore.log ++ [Call.Begin]) (Call.Prepare "q") = none ∧
      1 < [[1], [2], [3]].length ∧
      (∀ j, j < 1 → execOutcome badRowStore "q" [[1], [2], [3]] j = none) ∧
      execOutcome badRowStore "q" [[1], [2], [3]] 1 = some (errors.New "bad row")) ∧
    ((batch.batchInsert badRowStore "q" [[1], [2], [3]]).2 = some (errors.New "bad row") ∧
      newCalls badRowStore (batch.batchInsert badRowStore "q" [[1], [2], [3]]).1 =
        [Call.Begin, Call.Prepare "q", Call.Exec [1], Call.Exec [2], Call.StmtClose,
          Call.Rollback]) := by
  have hbefore : ∀ j, j < 1 → execOutcome badRowStore "q" [[1], [2], [3]] j = none := by
    intro j hj
    have : j = 0 := by omega
    subst this
    decide
  have h := ((batchInsert_all_or_nothing badRowStore "q" [[1], [2], [3]]).2.2.2
    (by decide) (by decide)).1 1 (errors.New "bad row") (by decide) hbefore (by decide)
  exact ⟨⟨by decide, by decide, by decide, hbefore, by decide⟩, h.1, h.2.1⟩

/-! ### Runs of the engine of `batch_insert.go` -/

/-- Options built by `WithMaxCache` change nothing but `maxCache`. -/
theorem foldl_WithMaxCache {V : Type} (maxes : List Int) (b : batch_insert.BatchInsert V) :
    let b1 := (maxes.map batch_insert.WithMaxCache).foldl (fun b opt => opt b) b
    b1.closed = b.closed ∧ b1.wg = b.wg ∧ b1.kick = b.kick ∧ b1.cache = b.cache ∧
      b1.db = b.db ∧ b1.sqlStr = b.sqlStr := by
  induction maxes generalizing b with
  | nil => simp
  | cons m rest ih =>
    have h := ih (batch_insert.WithMaxCache m b)
    simpa [batch_insert.WithMaxCache] using h

/-- A freshly built engine is open and holds no record. -/
theorem NewBatchInsert_open {V : Type} (db : Option (DB V)) (sql : String) (maxes : List Int) :
    batch_insert.OpenState
      (batch_insert.NewBatchInsert db sql (maxes.map batch_insert.WithMaxCache)) ∧
    (batch_insert.NewBatchInsert db sql (maxes.map batch_insert.WithMaxCache)).cache = [] := by
  have h := foldl_WithMaxCache maxes
    ({ db := db, closed := false, kick := { cap := 1, len := 0 }, cache := [],
       sqlStr := sql, maxCache := 1000000, wg := 0 } : batch_insert.BatchInsert V)
  simp only at h
  obtain ⟨h1, h2, h3, h4, -, -⟩ := h
  simp [batch_insert.OpenState, batch_insert.NewBatchInsert, h1, h2, h3, h4]

/-- `Insert` on an open engine: it succeeds, appends the record and keeps the engine open. -/
theorem Insert_open {V : Type} (b : batch_insert.BatchInsert V) (values : List V)
    (h : batch_insert.OpenState b) :
    (batch_insert.Insert b values).2 = none ∧
    (batch_insert.Insert b values).1.cache = b.cache ++ [values] ∧
    batch_insert.OpenState (batch_insert.Insert b values).1 := by
  obtain ⟨h1, h2, h3, h4⟩ := h
  have hl : b.kick.len = 0 ∨ b.kick.len = 1 := by omega
  by_cases hthr : b.maxCache ≤ (b.cache.length : Int) + 1
  · rcases hl with h0 | h0 <;>
      simp [batch_insert.Insert, batch_insert.kickFlush, batch_insert.OpenState, h1, h2, h3,
        hthr, h0]
  · rcases hl with h0 | h0 <;>
      simp [batch_insert.Insert, batch_insert.kickFlush, batch_insert.OpenState, h1, h2, h3,
        hthr, h0]

/-- A flusher cycle on an open engine: what it hands to `batchInsert` followed by what stays
in the buffer is the buffer before the cycle (the buffer is in fact emptied), and the engine
stays open. -/
theorem flusherCycle_open {V : Type} (b b1 : batch_insert.BatchInsert V)
    (w : batch_insert.Wake) (o : CycleObs V) (h : batch_insert.OpenState b)
    (hc : batch_insert.flusherCycle b w = some (b1, o)) :
    o.handed.toList.flatten ++ b1.cache = b.cache ∧ batch_insert.OpenState b1 := by
  obtain ⟨h1, h2, h3, h4⟩ := h
  have hl : b.kick.len = 0 ∨ b.kick.len = 1 := by omega
  cases w with
  | timer =>
    by_cases he : b.cache = []
    · simp [batch_insert.flusherCycle, batch_insert.flusherSelect, batch_insert.flusherBody,
        h1, h2, he] at hc
      obtain ⟨hb, ho⟩ := hc
      subst hb
      subst ho
      simp [batch_insert.OpenState, h1, h2, h3, h4, he]
    · have hpos : 0 < b.cache.length := List.length_pos.mpr he
      simp [batch_insert.flusherCycle, batch_insert.flusherSelect, batch_insert.flusherBody,
        h1, h2, hpos] at hc
      obtain ⟨hb, ho⟩ := hc
      subst hb
      subst ho
      simp [batch_insert.OpenState, h1, h2, h3, h4]
  | kick =>
    rcases hl with h0 | h0
    · simp [batch_insert.flusherCycle, batch_insert.flusherSelect, h2, h0] at hc
    · by_cases he : b.cache = []
      · simp [batch_insert.flusherCycle, batch_insert.flusherSelect, batch_insert.flusherBody,
          h1, h2, he, h0] at hc
        obtain ⟨hb, ho⟩ := hc
        subst hb
        subst ho
        simp [batch_insert.OpenState, h1, h2, h3, he]
      · have hpos : 0 < b.cache.length := List.length_pos.mpr he
        simp [batch_insert.flusherCycle, batch_insert.flusherSelect, batch_insert.flusherBody,
          h1, h2, hpos, h0] at hc
        obtain ⟨hb, ho⟩ := hc
        subst hb
        subst ho
        simp [batch_insert.OpenState, h1, h2, h3]

/-- The batches flushed in two consecutive stretches of a run. -/
theorem flushed_append {V : Type} (xs ys : List (batch_insert.Obs V)) :
    batch_insert.flushed (xs ++ ys) = batch_insert.flushed xs ++ batch_insert.flushed ys := by
  induction xs with
  | nil => simp [batch_insert.flushed]
  | cons x rest ih => cases x <;> simp [batch_insert.flushed, ih]

/-- A run of two schedules one after the other. -/
theorem run_append {V : Type} (s1 s2 : List (batch_insert.Action V))
    (b b1 b2 : batch_insert.BatchInsert V) (o1 o2 : List (batch_insert.Obs V))
    (h1 : batch_insert.run b s1 = some (b1, o1)) (h2 : batch_insert.run b1 s2 = some (b2, o2)) :
    batch_insert.run b (s1 ++ s2) = some (b2, o1 ++ o2) := by
  induction s1 generalizing b o1 with
  | nil =>
    simp [batch_insert.run] at h1
    obtain ⟨hb, ho⟩ := h1
    subst hb
    subst ho
    simpa using h2
  | cons a rest ih =>
    simp only [batch_insert.run, List.cons_append] at h1 ⊢
    cases hs : batch_insert.step b a with
    | none => simp [hs] at h1
    | some r =>
      obtain ⟨bm, om⟩ := r
      simp only [hs] at h1 ⊢
      cases hr : batch_insert.run bm rest with
      | none => simp [hr] at h1
      | some r2 =>
        obtain ⟨bn, obn⟩ := r2
        simp only [hr, Option.some.injEq, Prod.mk.injEq] at h1
        obtain ⟨hb, ho⟩ := h1
        subst hb
        subst ho
        simp [ih bm obn hr]

/-- The invariant of the open phase: along a run of `Insert` calls and flusher cycles from
an open state, the engine stays open, every `Insert` succeeds, and the flushed batches
followed by the buffer are the initial buffer followed by the inserted records. -/
theorem run_openPhase {V : Type} (sched : List (batch_insert.Action V))
    (b0 b : batch_insert.BatchInsert V) (obs : List (batch_insert.Obs V))
    (h0 : batch_insert.OpenState b0) (hphase : batch_insert.openPhase sched = true)
    (hrun : batch_insert.run b0 sched = some (b, obs)) :
    batch_insert.OpenState b ∧
    (batch_insert.flushed obs).flatten ++ b.cache = b0.cache ++ batch_insert.inserted sched ∧
    (∀ e, batch_insert.Obs.insert e ∈ obs → e = none) := by
  induction sched generalizing b0 obs with
  | nil =>
    simp [batch_insert.run] at hrun
    obtain ⟨hb, ho⟩ := hrun
    subst hb
    subst ho
    simp [h0, batch_insert.flushed, batch_insert.inserted]
  | cons a rest ih =>
    simp only [batch_insert.run] at hrun
    cases hs : batch_insert.step b0 a with
    | none => simp [hs] at hrun
    | some r =>
      obtain ⟨bm, om⟩ := r
      simp only [hs] at hrun
      cases hr : batch_insert.run bm rest with
      | none => simp [hr] at hrun
      | some r2 =>
        obtain ⟨bn, obn⟩ := r2
        simp only [hr, Option.some.injEq, Prod.mk.injEq] at hrun
        obtain ⟨hb, ho⟩ := hrun
        subst hb
        subst ho
        cases a with
        | insert values =>
          obtain ⟨i1, i2, i3⟩ := Insert_open b0 values h0
          simp only [batch_insert.step, Option.some.injEq, Prod.mk.injEq] at hs
          obtain ⟨hbm, hom⟩ := hs
          subst hbm
          subst hom
          obtain ⟨j1, j2, j3⟩ := ih _ obn i3 (by simpa [batch_insert.openPhase] using hphase) hr
          refine ⟨j1, ?_, ?_⟩
          · simp only [batch_insert.flushed, batch_insert.inserted]
            rw [j2, i2]
            simp
          · intro e he
            simp only [List.mem_cons] at he
            rcases he with he | he
            · cases he
              exact i1
            · exact j3 e he
        | cycle w =>
          simp only [batch_insert.step, Option.map_eq_some'] at hs
          obtain ⟨⟨bc, oc⟩, hc, hpair⟩ := hs
          simp only [Prod.mk.injEq] at hpair
          obtain ⟨hbm, hom⟩ := hpair
          subst hbm
          subst hom
          obtain ⟨c1, c2⟩ := flusherCycle_open b0 bc w oc h0 hc
          obtain ⟨j1, j2, j3⟩ := ih _ obn c2 (by simpa [batch_insert.openPhase] using hphase) hr
          refine ⟨j1, ?_, ?_⟩
          · simp only [batch_insert.flushed, batch_insert.inserted, List.flatten_append,
              List.append_assoc]
            rw [j2, ← List.append_assoc, c1]
          · intro e he
            simp only [List.mem_cons] at he
            rcases he with he | he
            · cases he
            · exact j3 e he
        | close => simp [batch_insert.openPhase] at hphase
        | closeWait => simp [batch_insert.openPhase] at hphase

/-- The shutdown of an open engine: `Close` blocks in `wg.Wait()`, the next flusher cycle can
be woken by the timer as well as by the signal, hands the whole buffer to `batchInsert` (when
it is not empty) and stops the flusher, and `Close` then returns nil. -/
theorem run_shutdown {V : Type} (b : batch_insert.BatchInsert V) (w : batch_insert.Wake)
    (h : batch_insert.OpenState b) :
    ∃ b1 o, batch_insert.run b
        [batch_insert.Action.close, batch_insert.Action.cycle w, batch_insert.Action.closeWait]
      = some (b1, [batch_insert.Obs.close CloseStatus.waiting, batch_insert.Obs.cycle o,
          batch_insert.Obs.closeWait none]) ∧
      o.handed = (if b.cache.isEmpty then none else some b.cache) ∧ o.stopped = true ∧
      b1.cache = [] ∧ b1.wg = 0 ∧ b1.closed = true := by
  obtain ⟨h1, h2, h3, h4⟩ := h
  have hl : b.kick.len = 0 ∨ b.kick.len = 1 := by omega
  by_cases he : b.cache = []
  · cases w <;> rcases hl with h0 | h0 <;>
      simp [batch_insert.run, batch_insert.step, batch_insert.Close, batch_insert.kickFlush,
        batch_insert.flusherCycle, batch_insert.flusherSelect, batch_insert.flusherBody,
        batch_insert.CloseWait, h1, h2, h3, h0, he] <;>
      exact ⟨_, _, ⟨rfl, rfl⟩, by simp⟩
  · have hpos : 0 < b.cache.length := List.length_pos.mpr he
    cases w <;> rcases hl with h0 | h0 <;>
      simp [batch_insert.run, batch_insert.step, batch_insert.Close, batch_insert.kickFlush,
        batch_insert.flusherCycle, batch_insert.flusherSelect, batch_insert.flusherBody,
        batch_insert.CloseWait, h1, h2, h3, h0, he, hpos] <;>
      exact ⟨_, _, ⟨rfl, rfl⟩, by simp⟩

/-- The order of keys is total. -/
theorem keyLE_total (a b : String) : url.keyLE a b ∨ url.keyLE b a := by
  unfold url.keyLE
  exact le_total a.data b.data

/-- The order of keys is transitive. -/
theorem keyLE_trans (a b c : String) : url.keyLE a b → url.keyLE b c → url.keyLE a c := by
  unfold url.keyLE
  exact le_trans

/-- The order of keys is antisymmetric. -/
theorem keyLE_antisymm (a b : String) : url.keyLE a b → url.keyLE b a → a = b := by
  unfold url.keyLE
  intro h1 h2
  exact String.ext (le_antisymm h1 h2)

/-- `Values.Set` of a key the map does not hold adds one entry at the end. -/
theorem Values_Set_new (v : url.Values) (key value : String)
    (h : ∀ p ∈ v, p.1 ≠ key) : url.Values.Set v key value = v ++ [(key, [value])] := by
  induction v with
  | nil => simp [url.Values.Set]
  | cons p rest ih =>
    obtain ⟨k, vs⟩ := p
    have hk : k ≠ key := h (k, vs) (by simp)
    have hrest := ih (fun q hq => h q (by simp [hq]))
    simp [url.Values.Set, hk, hrest]

/-- In a map with one entry per key, the read of a key gives the values of its entry. -/
theorem Values_lookup_of_mem (v : url.Values) (k : String) (vs : List String)
    (hnd : (v.map Prod.fst).Nodup) (hmem : (k, vs) ∈ v) : url.Values.lookup v k = vs := by
  induction v with
  | nil => simp at hmem
  | cons p rest ih =>
    obtain ⟨k1, vs1⟩ := p
    simp only [List.map_cons, List.nodup_cons, List.mem_map, not_exists, not_and] at hnd
    simp only [List.mem_cons, Prod.mk.injEq] at hmem
    rcases hmem with ⟨h1, h2⟩ | hmem
    · simp [url.Values.lookup, h1, h2]
    · have hk : k1 ≠ k := by
        intro heq
        exact hnd.1 (k, vs) hmem heq.symm
      simp [url.Values.lookup, hk, ih hnd.2 hmem]

/-- Reading the values of the keys of some entries of a map gives back those entries. -/
theorem flatMap_lookup (v t : url.Values) (hnd : (v.map Prod.fst).Nodup)
    (hsub : ∀ p ∈ t, p ∈ v) (g : String → String → String) :
    (t.map Prod.fst).flatMap (fun k => (url.Values.lookup v k).map (g k)) =
      t.flatMap (fun p => p.2.map (g p.1)) := by
  induction t with
  | nil => simp
  | cons p rest ih =>
    obtain ⟨k, vs⟩ := p
    have h1 := Values_lookup_of_mem v k vs hnd (hsub (k, vs) (by simp))
    have h2 := ih (fun q hq => hsub q (by simp [hq]))
    simp [h1, h2]

/-- `Values.Encode` of a map with one entry per key writes the entries in the order of any
arrangement of them that is sorted by key. -/
theorem Values_Encode_sorted (v s : url.Values) (hnd : (v.map Prod.fst).Nodup)
    (hperm : s.Perm v) (hsorted : (s.map Prod.fst).Sorted url.keyLE) :
    url.Values.Encode v = "&".intercalate
      (s.flatMap fun p => p.2.map fun x => url.QueryEscape p.1 ++ "=" ++ url.QueryEscape x) := by
  haveI : IsTotal String url.keyLE := ⟨keyLE_total⟩
  haveI : IsTrans String url.keyLE := ⟨keyLE_trans⟩
  haveI : IsAntisymm String url.keyLE := ⟨keyLE_antisymm⟩
  have hkeys : List.insertionSort url.keyLE (v.map Prod.fst) = s.map Prod.fst :=
    List.eq_of_perm_of_sorted
      ((List.perm_insertionSort url.keyLE _).trans (hperm.map Prod.fst).symm)
      (List.sorted_insertionSort url.keyLE _) hsorted
  unfold url.Values.Encode
  rw [hkeys]
  rw [flatMap_lookup v s hnd (fun p hp => hperm.mem_iff.mp hp)
    (fun k x => url.QueryEscape k ++ "=" ++ url.QueryEscape x)]

/-- The entries of a list of parameters, written out. -/
theorem flatMap_toEntry (l : List (String × String)) (g : String → String → String) :
    (l.map toEntry).flatMap (fun p => p.2.map (g p.1)) = l.map (fun p => g p.1 p.2) := by
  induction l with
  | nil => simp
  | cons p rest ih => simp [toEntry, ih]

/-- The keys of a parameter followed by parameters with keys among `keys` are among
`key :: keys`, in the same order. -/
theorem param_keys_sublist (set : Bool) (key value : String) (l : List (String × String))
    (keys : List String) (h : (l.map Prod.fst).Sublist keys) :
    ((param set key value ++ l).map Prod.fst).Sublist (key :: keys) := by
  cases set
  · simpa [param] using h.cons key
  · simpa [param] using h.cons₂ key

/-- The statement `if set { v.Set(key, value) }` on the empty map. -/
theorem setIf_nil (set : Bool) (key value : String) :
    url.Values.setIf set [] key value = (param set key value).map toEntry := by
  cases set <;> simp [url.Values.setIf, url.Values.Set, param, toEntry]

/-- The statement `if set { v.Set(key, value) }` for a key the map does not hold yet. -/
theorem setIf_param (l : List (String × String)) (set : Bool) (key value : String)
    (h : ∀ p ∈ l, p.1 ≠ key) :
    url.Values.setIf set (l.map toEntry) key value = (l ++ param set key value).map toEntry := by
  cases set
  · simp [url.Values.setIf, param]
  · have := Values_Set_new (l.map toEntry) key value (by
      intro p hp
      simp only [List.mem_map] at hp
      obtain ⟨q, hq, rfl⟩ := hp
      exact h q hq)
    simp [url.Values.setIf, param, this, toEntry]

/-- Under its own condition, `FormatBool(!set)` is `false` and `FormatBool(set)` is `true`. -/
theorem setIf_FormatBool (set : Bool) (v : url.Values) (key : String) :
    url.Values.setIf set v key (strconv.FormatBool (!set)) = url.Values.setIf set v key "false" ∧
    url.Values.setIf set v key (strconv.FormatBool set) = url.Values.setIf set v key "true" := by
  cases set <;> simp [url.Values.setIf, strconv.FormatBool]

/-- Membership in a conditional parameter. -/
theorem mem_param (set : Bool) (key value : String) (p : String × String) :
    p ∈ param set key value ↔ set = true ∧ p = (key, value) := by
  cases set <;> simp [param]

/-- The map `Options.GetUrl` builds holds the parameters in the order of the `v.Set` calls. -/
theorem values_eq_codeParams (opts : batch_insert.Options) :
    opts.values = opts.codeParams.map toEntry := by
  unfold batch_insert.Options.values batch_insert.Options.codeParams
  simp only [(setIf_FormatBool _ _ _).1, (setIf_FormatBool _ _ _).2]
  rw [setIf_nil]
  repeat rw [setIf_param]
  · simp [List.append_assoc]
  all_goals
    simp only [List.mem_append, mem_param, Prod.forall, Prod.mk.injEq]
    intro a b h hkey
    subst hkey
    simp at h

/-- The specification's parameters are those of the code, in another order. -/
theorem expectedParams_perm (opts : batch_insert.Options) :
    opts.expectedParams.Perm opts.codeParams := by
  rw [List.perm_iff_count]
  intro a
  simp only [batch_insert.Options.expectedParams, batch_insert.Options.codeParams,
    List.count_append]
  omega

/-- The keys of the code's parameters are among `codeKeys`, in order. -/
theorem codeParams_keys (opts : batch_insert.Options) :
    (opts.codeParams.map Prod.fst).Sublist codeKeys := by
  unfold batch_insert.Options.codeParams codeKeys
  repeat refine param_keys_sublist _ _ _ _ _ ?_
  simp

/-- The keys of the specification's parameters are among `sortedKeys`, in order. -/
theorem expectedParams_keys (opts : batch_insert.Options) :
    (opts.expectedParams.map Prod.fst).Sublist sortedKeys := by
  unfold batch_insert.Options.expectedParams sortedKeys
  repeat refine param_keys_sublist _ _ _ _ _ ?_
  simp

/-- The keys of an entry list are the keys of the parameters. -/
theorem map_fst_toEntry (l : List (String × String)) :
    (l.map toEntry).map Prod.fst = l.map Prod.fst := by
  induction l with
  | nil => rfl
  | cons p rest ih => simp [toEntry]

/-- The raw query `Options.GetUrl` builds is the specification's query. -/
theorem values_Encode (opts : batch_insert.Options) :
    opts.values.Encode = "&".intercalate
      (opts.expectedParams.map fun p => url.QueryEscape p.1 ++ "=" ++ url.QueryEscape p.2) := by
  have hnd : ((opts.codeParams.map toEntry).map Prod.fst).Nodup := by
    rw [map_fst_toEntry]
    exact List.Nodup.sublist (codeParams_keys opts) (by decide)
  have hsorted : ((opts.expectedParams.map toEntry).map Prod.fst).Sorted url.keyLE := by
    rw [map_fst_toEntry]
    exact List.Pairwise.sublist (expectedParams_keys opts) (by decide)
  rw [values_eq_codeParams,
    Values_Encode_sorted _ _ hnd ((expectedParams_perm opts).map toEntry) hsorted,
    flatMap_toEntry _ (fun k x => url.QueryEscape k ++ "=" ++ url.QueryEscape x)]

/-- The keys of `Options.GetUrl` are written as they are. -/
theorem QueryEscape_keys (opts : batch_insert.Options) :
    ∀ p ∈ opts.expectedParams, url.QueryEscape p.1 = p.1 := by
  intro p hp
  have hmem : p.1 ∈ sortedKeys :=
    (expectedParams_keys opts).subset (List.mem_map_of_mem Prod.fst hp)
  have hall : ∀ k ∈ sortedKeys, url.QueryEscape k = k := by decide
  exact hall p.1 hmem

/-- The joining loop of `intercalate` only makes its accumulator longer. -/
theorem intercalate_go_length (acc sep : String) (l : List String) :
    acc.length ≤ (String.intercalate.go acc sep l).length := by
  induction l generalizing acc with
  | nil => simp [String.intercalate.go]
  | cons a rest ih =>
    have := ih (acc ++ sep ++ a)
    simp only [String.intercalate.go]
    simp only [String.length_append] at this
    omega

/-- A string of positive length is not the empty string. -/
theorem ne_empty_of_length_pos (s : String) (h : 0 < s.length) : s ≠ "" := by
  intro hs
  rw [hs] at h
  simp at h

/-- The query is empty exactly when no parameter is set. -/
theorem query_empty_iff (l : List (String × String)) :
    "&".intercalate (l.map fun p => url.QueryEscape p.1 ++ "=" ++ url.QueryEscape p.2) = "" ↔
      l = [] := by
  cases l with
  | nil => simp [String.intercalate]
  | cons p rest =>
    simp only [List.map_cons, String.intercalate, reduceCtorEq, iff_false]
    apply ne_empty_of_length_pos
    have := intercalate_go_length (url.QueryEscape p.1 ++ "=" ++ url.QueryEscape p.2) "&"
      (rest.map fun p => url.QueryEscape p.1 ++ "=" ++ url.QueryEscape p.2)
    simp only [String.length_append] at this
    have h1 : "=".length = 1 := by decide
    omega

/-- A host made of characters that need no escaping is written as it is. -/
theorem escape_hostSafe (host : String) (h : hostSafe host = true) :
    host ≠ "" ∧ url.escape host url.encoding.encodeHost = host := by
  simp only [hostSafe, Bool.and_eq_true, decide_eq_true_eq, List.all_eq_true,
    Bool.not_eq_true'] at h
  obtain ⟨hne, hall⟩ := h
  refine ⟨hne, ?_⟩
  have hdata : ∀ l : List Char, (∀ c ∈ l, c.toNat < 128 ∧
      url.shouldEscape c url.encoding.encodeHost = false) →
      l.flatMap (url.escapeChar url.encoding.encodeHost) = l := by
    intro l
    induction l with
    | nil => simp
    | cons c rest ih =>
      intro hl
      have hc := hl c (by simp)
      have hrest := ih (fun d hd => hl d (by simp [hd]))
      simp [url.escapeChar, hc.1, hc.2, hrest]
  unfold url.escape
  rw [hdata host.data hall]

/-- `Options.GetUrl` on the options of the second case of `TestOptions_GetUrl` gives the
string that test expects. -/
theorem GetUrl_test_vector :
    testOptions.GetUrl =
      ("tcp://127.0.0.1:9000?alt_hosts=127.0.0.1%3A9001%2C127.0.0.1%3A9002&block_size=2&database=db&debug=true&no_delay=false&password=pwd&pool_size=1&read_timeout=4&secure=true&skip_verify=false&username=user&write_timeout=3",
        none) := by
  set_option maxRecDepth 1000000 in decide

/-- C7, as the claim states it, fails: for the single host `a b` the result is `tcp://a%20b`,
not `tcp://` followed by the host, and for the single host that is the empty string the
result is `tcp:`. -/
theorem GetUrl_host_counterexample :
    (hostOnly "a b").GetUrl = ("tcp://a%20b", none) ∧
    (hostOnly "a b").GetUrl.1 ≠ "tcp://" ++ "a b" ∧
    (hostOnly "").GetUrl = ("tcp:", none) ∧
    (hostOnly "").GetUrl.1 ≠ "tcp://" ++ "" := by
  decide

/-- C7 (connection string), amended: for every `Options` whose first host is not empty and
is made only of characters that need no escaping in a host (ASCII letters, digits and
`-_.~!$&'()*+,;=:[]<>"`), `GetUrl` returns no error and `tcp://` followed by that host,
followed by `?` and a query string only when at least one parameter is set; the query holds
one `key=value` pair per set field (`expectedParams`), query-escaped, joined by `&`, in
ascending key order, and the keys are written as they are.  With a single such host and
nothing else the result is `tcp://` followed by the host. -/
theorem GetUrl_builds_connection_string (opts : batch_insert.Options) (host : String)
    (rest : List String) (hHosts : opts.Hosts = some (host :: rest))
    (hsafe : hostSafe host = true) :
    opts.GetUrl = (opts.expectedUrl host, none) ∧
    (∀ p ∈ opts.expectedParams, url.QueryEscape p.1 = p.1) ∧
    (opts.expectedParams.map Prod.fst).Sublist sortedKeys ∧
    (hostOnly host).GetUrl = ("tcp://" ++ host, none) := by
  obtain ⟨hne, hesc⟩ := escape_hostSafe host hsafe
  have key : ∀ o : batch_insert.Options, o.Hosts = some (host :: rest) →
      o.GetUrl = (o.expectedUrl host, none) := by
    intro o ho
    have h1 : ("tcp" : String) ≠ "" := by decide
    have h2 : ("tcp" : String) ++ ":" ++ ("//" ++ host) = "tcp://" ++ host := by
      rw [← String.append_assoc]
      rfl
    unfold batch_insert.Options.GetUrl batch_insert.Options.expectedUrl
    rw [ho]
    simp only [url.URL.toString, values_Encode, hesc, ne_eq, h1, not_false_eq_true, ↓reduceIte,
      hne, true_or]
    rw [h2]
    by_cases hp : o.expectedParams = []
    · simp [hp, String.intercalate]
    · have hq := (query_empty_iff o.expectedParams).not.mpr hp
      simp [hp, hq]
  refine ⟨key opts hHosts, QueryEscape_keys opts, expectedParams_keys opts, ?_⟩
  have hone : (hostOnly host).GetUrl = ((hostOnly host).expectedUrl host, none) := by
    have h1 : ("tcp" : String) ≠ "" := by decide
    have h2 : ("tcp" : String) ++ ":" ++ ("//" ++ host) = "tcp://" ++ host := by
      rw [← String.append_assoc]
      rfl
    unfold batch_insert.Options.GetUrl batch_insert.Options.expectedUrl
    simp only [hostOnly, url.URL.toString, values_Encode, hesc, ne_eq, h1, not_false_eq_true,
      ↓reduceIte, hne, true_or]
    rw [h2]
    simp [batch_insert.Options.expectedParams, param, batch_insert.len, String.intercalate]
  rw [hone]
  simp [batch_insert.Options.expectedUrl, batch_insert.Options.expectedParams, hostOnly, param,
    batch_insert.len]

/-- Witness of C7: the options of the second case of `TestOptions_GetUrl`. -/
theorem GetUrl_builds_connection_string_witness :
    (testOptions.Hosts = some ("127.0.0.1:9000" :: ["127.0.0.1:9001", "127.0.0.1:9002"]) ∧
      hostSafe "127.0.0.1:9000" = true) ∧
    testOptions.GetUrl = (testOptions.expectedUrl "127.0.0.1:9000", none) :=
  ⟨⟨rfl, by decide⟩,
    (GetUrl_builds_connection_string testOptions "127.0.0.1:9000"
      ["127.0.0.1:9001", "127.0.0.1:9002"] rfl (by decide)).1⟩

/-! ### A failed flush -/

/-- The `Exec` loop, when it returns nil, has executed every record in order. -/
theorem execAll_none {V : Type} (values : List (List V)) (db db1 : DB V)
    (h : execAll db values = (db1, none)) :
    db1.respond = db.respond ∧ db1.log = db.log ++ values.map Call.Exec := by
  induction values generalizing db with
  | nil =>
    simp only [execAll, Prod.mk.injEq, and_true] at h
    subst h
    simp
  | cons v rest ih =>
    simp only [execAll, DB.call] at h
    split at h
    · simp at h
    · rename_i dbm hm
      simp only [Prod.mk.injEq] at hm
      obtain ⟨hm1, -⟩ := hm
      subst hm1
      obtain ⟨i1, i2⟩ := ih _ h
      exact ⟨i1, by simp [i2]⟩

/-- When `batchInsert` returns nil, it has made exactly the calls of one transaction. -/
theorem batchInsertTx_none {V : Type} (db : DB V) (sqlStr : String) (values : List (List V))
    (h : (batchInsertTx db sqlStr values).2 = none) :
    (batchInsertTx db sqlStr values).1.respond = db.respond ∧
    (batchInsertTx db sqlStr values).1.log = db.log ++ txCalls sqlStr values := by
  unfold batchInsertTx at h ⊢
  simp only [DB.call] at h ⊢
  split at h
  · simp at h
  · rename_i db1 hb
    simp only [Prod.mk.injEq] at hb
    obtain ⟨hb1, hb2⟩ := hb
    subst hb1
    split at h
    · simp at h
    · rename_i db2 hp
      simp only [Prod.mk.injEq] at hp
      obtain ⟨hp1, hp2⟩ := hp
      subst hp1
      split at h
      · simp at h
      · rename_i db3 hx
        obtain ⟨x1, x2⟩ := execAll_none values _ db3 hx
        split at h
        · simp at h
        · rename_i db4 hc
          simp only [Prod.mk.injEq] at hc
          obtain ⟨hc1, hc2⟩ := hc
          subst hc1
          simp only [hb2, hp2, hx, hc2]
          simp [x1, x2, txCalls]

/-- A flusher cycle of `batch_insert.go` whose `batchInsert` call (if it makes one) returns
nil: the store receives exactly one transaction holding the whole batch handed over, and
nothing when no batch is handed over. -/
theorem flusherCycle_store {V : Type} (b b1 : batch_insert.BatchInsert V)
    (w : batch_insert.Wake) (o : CycleObs V) (d : DB V)
    (hc : batch_insert.flusherCycle b w = some (b1, o)) (hok : o.result = none)
    (hdb : b.db = some d) :
    ∃ d1, b1.db = some d1 ∧ d1.respond = d.respond ∧
      d1.log = d.log ++ o.handed.toList.flatMap (txCalls b.sqlStr) ∧
      b1.sqlStr = b.sqlStr := by
  have hwg : b.wg ≠ 0 := by
    intro h0
    simp [batch_insert.flusherCycle, h0] at hc
  simp only [batch_insert.flusherCycle, hwg, ↓reduceIte, Option.map_eq_some'] at hc
  obtain ⟨s, hs, hbody⟩ := hc
  have hsel : s.db = b.db ∧ s.sqlStr = b.sqlStr := by
    cases w with
    | timer =>
      simp only [batch_insert.flusherSelect, Option.some.injEq] at hs
      subst hs
      exact ⟨rfl, rfl⟩
    | kick =>
      simp only [batch_insert.flusherSelect] at hs
      split at hs
      · simp only [Option.some.injEq] at hs
        subst hs
        exact ⟨rfl, rfl⟩
      · simp at hs
  obtain ⟨s1, s2⟩ := hsel
  rw [hdb] at s1
  by_cases he : s.cache = []
  · by_cases hcl : s.closed = true
    · simp [batch_insert.flusherBody, he, hcl] at hbody
      obtain ⟨hb1, ho⟩ := hbody
      subst hb1
      subst ho
      exact ⟨d, s1, rfl, by simp, s2⟩
    · simp [batch_insert.flusherBody, he, hcl] at hbody
      obtain ⟨hb1, ho⟩ := hbody
      subst hb1
      subst ho
      exact ⟨d, s1, rfl, by simp, s2⟩
  · have hpos : 0 < s.cache.length := List.length_pos.mpr he
    have hres : o.result = (batchInsertTx d s.sqlStr s.cache).2 ∧
        b1.db = some (batchInsertTx d s.sqlStr s.cache).1 ∧ o.handed = some s.cache ∧
        b1.sqlStr = s.sqlStr := by
      by_cases hcl : s.closed = true
      · simp [batch_insert.flusherBody, hpos, hcl, s1, batch_insert.batchInsert] at hbody
        obtain ⟨hb1, ho⟩ := hbody
        subst hb1
        subst ho
        exact ⟨rfl, rfl, rfl, rfl⟩
      · simp [batch_insert.flusherBody, hpos, hcl, s1, batch_insert.batchInsert] at hbody
        obtain ⟨hb1, ho⟩ := hbody
        subst hb1
        subst ho
        exact ⟨rfl, rfl, rfl, rfl⟩
    obtain ⟨r1, r2, r3, r4⟩ := hres
    rw [r1] at hok
    obtain ⟨t1, t2⟩ := batchInsertTx_none d s.sqlStr s.cache hok
    refine ⟨_, r2, t1, ?_, r4.trans s2⟩
    rw [t2, r3, s2]
    simp

/-- The store along a run of `batch_insert.go` in which every `batchInsert` call returned
nil: its log has grown by one transaction per flushed batch, in the order of the flushes. -/
theorem run_store {V : Type} (sched : List (batch_insert.Action V))
    (b0 b : batch_insert.BatchInsert V) (obs : List (batch_insert.Obs V)) (d0 : DB V)
    (hdb : b0.db = some d0) (hrun : batch_insert.run b0 sched = some (b, obs))
    (hok : batch_insert.allCommitsSucceed obs = true) :
    ∃ d, b.db = some d ∧ d.respond = d0.respond ∧
      d.log = d0.log ++ (batch_insert.flushed obs).flatMap (txCalls b0.sqlStr) ∧
      b.sqlStr = b0.sqlStr := by
  induction sched generalizing b0 obs d0 with
  | nil =>
    simp [batch_insert.run] at hrun
    obtain ⟨hb, ho⟩ := hrun
    subst hb
    subst ho
    exact ⟨d0, hdb, rfl, by simp [batch_insert.flushed], rfl⟩
  | cons a rest ih =>
    simp only [batch_insert.run] at hrun
    cases hs : batch_insert.step b0 a with
    | none => simp [hs] at hrun
    | some r =>
      obtain ⟨bm, om⟩ := r
      simp only [hs] at hrun
      cases hr : batch_insert.run bm rest with
      | none => simp [hr] at hrun
      | some r2 =>
        obtain ⟨bn, obn⟩ := r2
        simp only [hr, Option.some.injEq, Prod.mk.injEq] at hrun
        obtain ⟨hb, ho⟩ := hrun
        subst hb
        subst ho
        cases a with
        | insert values =>
          simp only [batch_insert.step, Option.some.injEq, Prod.mk.injEq] at hs
          obtain ⟨hbm, hom⟩ := hs
          subst hbm
          subst hom
          have hkeep : (batch_insert.Insert b0 values).1.db = b0.db ∧
              (batch_insert.Insert b0 values).1.sqlStr = b0.sqlStr := by
            unfold batch_insert.Insert batch_insert.kickFlush
            split
            · exact ⟨rfl, rfl⟩
            · dsimp only
              split <;> [split; skip] <;> exact ⟨rfl, rfl⟩
          obtain ⟨k1, k2⟩ := hkeep
          obtain ⟨d, j1, j2, j3, j4⟩ := ih _ obn d0 (k1.trans hdb) hr
            (by simpa [batch_insert.allCommitsSucceed] using hok)
          exact ⟨d, j1, j2, by simpa [batch_insert.flushed, k2] using j3, j4.trans k2⟩
        | cycle w =>
          simp only [batch_insert.step, Option.map_eq_some'] at hs
          obtain ⟨⟨bc, oc⟩, hc, hpair⟩ := hs
          simp only [Prod.mk.injEq] at hpair
          obtain ⟨hbm, hom⟩ := hpair
          subst hbm
          subst hom
          simp only [batch_insert.allCommitsSucceed, Bool.and_eq_true,
            Option.isNone_iff_eq_none] at hok
          obtain ⟨dc, c2, c3, c4, c5⟩ := flusherCycle_store b0 bc w oc d0 hc hok.1 hdb
          obtain ⟨d, j1, j2, j3, j4⟩ := ih _ obn dc c2 hr hok.2
          refine ⟨d, j1, j2.trans c3, ?_, j4.trans c5⟩
          rw [j3, c4, c5]
          simp [batch_insert.flushed]
        | close =>
          simp only [batch_insert.step, Option.some.injEq, Prod.mk.injEq] at hs
          obtain ⟨hbm, hom⟩ := hs
          subst hbm
          subst hom
          have hkeep : (batch_insert.Close b0).1.db = b0.db ∧
              (batch_insert.Close b0).1.sqlStr = b0.sqlStr := by
            unfold batch_insert.Close batch_insert.kickFlush
            split
            · exact ⟨rfl, rfl⟩
            · dsimp only
              split <;> exact ⟨rfl, rfl⟩
          obtain ⟨k1, k2⟩ := hkeep
          obtain ⟨d, j1, j2, j3, j4⟩ := ih _ obn d0 (k1.trans hdb) hr
            (by simpa [batch_insert.allCommitsSucceed] using hok)
          exact ⟨d, j1, j2, by simpa [batch_insert.flushed, k2] using j3, j4.trans k2⟩
        | closeWait =>
          simp only [batch_insert.step, Option.map_eq_some'] at hs
          obtain ⟨e, -, hpair⟩ := hs
          simp only [Prod.mk.injEq] at hpair
          obtain ⟨hbm, hom⟩ := hpair
          subst hbm
          subst hom
          obtain ⟨d, j1, j2, j3, j4⟩ := ih _ obn d0 hdb hr
            (by simpa [batch_insert.allCommitsSucceed] using hok)
          exact ⟨d, j1, j2, by simpa [batch_insert.flushed] using j3, j4⟩

/-- The `Exec` calls among the calls of successful transactions are the records of the
batches, in order. -/
theorem filter_isExec_txCalls {V : Type} (sqlStr : String) (batches : List (List (List V))) :
    (batches.flatMap (txCalls sqlStr)).filter Call.isExec = batches.flatten.map Call.Exec := by
  induction batches with
  | nil => simp
  | cons l rest ih =>
    obtain ⟨-, -, -, c4⟩ := countP_map_Exec l
    simp only [List.flatMap_cons, List.filter_append, ih, List.flatten_cons, List.map_append,
      txCalls, c4]
    simp [List.filter_cons, Call.isExec]

/-- The calls a store has received since `before`, when its log has grown by `calls`. -/
theorem newCalls_of_log {V : Type} (before after : DB V) (calls : List (Call V))
    (h : after.log = before.log ++ calls) : newCalls before after = calls := by
  simp [newCalls, h]

/-- The store and the statement of a freshly built engine. -/
theorem NewBatchInsert_db {V : Type} (db : Option (DB V)) (sql : String) (maxes : List Int) :
    (batch_insert.NewBatchInsert db sql (maxes.map batch_insert.WithMaxCache)).db = db ∧
    (batch_insert.NewBatchInsert db sql (maxes.map batch_insert.WithMaxCache)).sqlStr = sql := by
  have h := foldl_WithMaxCache maxes
    ({ db := db, closed := false, kick := { cap := 1, len := 0 }, cache := [],
       sqlStr := sql, maxCache := 1000000, wg := 0 } : batch_insert.BatchInsert V)
  simp only at h
  obtain ⟨-, -, -, -, h5, h6⟩ := h
  simp [batch_insert.NewBatchInsert, h5, h6]

/-- On a store that accepts every call, `batchInsert` returns nil. -/
theorem batchInsertTx_ok {V : Type} (db : DB V) (sqlStr : String) (values : List (List V))
    (hok : ∀ h c, db.respond h c = none) : (batchInsertTx db sqlStr values).2 = none := by
  have hx := execAll_all_ok values
    ⟨db.respond, db.log ++ [Call.Begin, Call.Prepare sqlStr]⟩ (fun k _ => hok _ _)
  simp [batchInsertTx, DB.call, hok, hx]

/-- On a store that accepts every call, the `batchInsert` call of a flusher cycle (if it
makes one) returns nil. -/
theorem flusherCycle_ok {V : Type} (b b1 : batch_insert.BatchInsert V)
    (w : batch_insert.Wake) (o : CycleObs V) (d : DB V)
    (hc : batch_insert.flusherCycle b w = some (b1, o)) (hdb : b.db = some d)
    (hok : ∀ h c, d.respond h c = none) : o.result = none := by
  have hwg : b.wg ≠ 0 := by
    intro h0
    simp [batch_insert.flusherCycle, h0] at hc
  simp only [batch_insert.flusherCycle, hwg, ↓reduceIte, Option.map_eq_some'] at hc
  obtain ⟨s, hs, hbody⟩ := hc
  have s1 : s.db = some d := by
    cases w with
    | timer =>
      simp only [batch_insert.flusherSelect, Option.some.injEq] at hs
      subst hs
      exact hdb
    | kick =>
      simp only [batch_insert.flusherSelect] at hs
      split at hs
      · simp only [Option.some.injEq] at hs
        subst hs
        exact hdb
      · simp at hs
  have hres := batchInsertTx_ok d s.sqlStr s.cache hok
  by_cases he : s.cache = [] <;> by_cases hcl : s.closed = true
  · simp [batch_insert.flusherBody, he, hcl] at hbody
    obtain ⟨-, ho⟩ := hbody
    subst ho
    rfl
  · simp [batch_insert.flusherBody, he, hcl] at hbody
    obtain ⟨-, ho⟩ := hbody
    subst ho
    rfl
  · have hpos : 0 < s.cache.length := List.length_pos.mpr he
    simp [batch_insert.flusherBody, hpos, hcl, s1, batch_insert.batchInsert] at hbody
    obtain ⟨-, ho⟩ := hbody
    subst ho
    exact hres
  · have hpos : 0 < s.cache.length := List.length_pos.mpr he
    simp [batch_insert.flusherBody, hpos, hcl, s1, batch_insert.batchInsert] at hbody
    obtain ⟨-, ho⟩ := hbody
    subst ho
    exact hres

/-- Over a store that accepts every call, every commit of a run succeeds. -/
theorem run_ok_store {V : Type} (sched : List (batch_insert.Action V))
    (b0 b : batch_insert.BatchInsert V) (obs : List (batch_insert.Obs V)) (d0 : DB V)
    (hdb : b0.db = some d0) (hok : ∀ h c, d0.respond h c = none)
    (hrun : batch_insert.run b0 sched = some (b, obs)) :
    batch_insert.allCommitsSucceed obs = true := by
  induction sched generalizing b0 obs d0 with
  | nil =>
    simp [batch_insert.run] at hrun
    obtain ⟨-, ho⟩ := hrun
    subst ho
    rfl
  | cons a rest ih =>
    simp only [batch_insert.run] at hrun
    cases hs : batch_insert.step b0 a with
    | none => simp [hs] at hrun
    | some r =>
      obtain ⟨bm, om⟩ := r
      simp only [hs] at hrun
      cases hr : batch_insert.run bm rest with
      | none => simp [hr] at hrun
      | some r2 =>
        obtain ⟨bn, obn⟩ := r2
        simp only [hr, Option.some.injEq, Prod.mk.injEq] at hrun
        obtain ⟨hb, ho⟩ := hrun
        subst hb
        subst ho
        have hone : batch_insert.run b0 [a] = some (bm, [om]) := by
          simp [batch_insert.run, hs]
        cases a with
        | insert values =>
          have hom : om = batch_insert.Obs.insert (batch_insert.Insert b0 values).2 := by
            simp only [batch_insert.step, Option.some.injEq, Prod.mk.injEq] at hs
            exact hs.2.symm
          subst hom
          obtain ⟨d, j1, j2, -, -⟩ := run_store _ _ _ _ d0 hdb hone rfl
          have := ih bm obn d j1 (fun h c => by rw [j2]; exact hok h c) hr
          simpa [batch_insert.allCommitsSucceed] using this
        | cycle w =>
          simp only [batch_insert.step, Option.map_eq_some'] at hs
          obtain ⟨⟨bc, oc⟩, hc, hpair⟩ := hs
          simp only [Prod.mk.injEq] at hpair
          obtain ⟨hbm, hom⟩ := hpair
          subst hbm
          subst hom
          have hres := flusherCycle_ok b0 bc w oc d0 hc hdb hok
          obtain ⟨d, j1, j2, -, -⟩ := flusherCycle_store b0 bc w oc d0 hc hres hdb
          have := ih bc obn d j1 (fun h c => by rw [j2]; exact hok h c) hr
          simp [batch_insert.allCommitsSucceed, hres, this]
        | close =>
          have hom : om = batch_insert.Obs.close (batch_insert.Close b0).2 := by
            simp only [batch_insert.step, Option.some.injEq, Prod.mk.injEq] at hs
            exact hs.2.symm
          subst hom
          obtain ⟨d, j1, j2, -, -⟩ := run_store _ _ _ _ d0 hdb hone rfl
          have := ih bm obn d j1 (fun h c => by rw [j2]; exact hok h c) hr
          simpa [batch_insert.allCommitsSucceed] using this
        | closeWait =>
          simp only [batch_insert.step, Option.map_eq_some'] at hs
          obtain ⟨e, -, hpair⟩ := hs
          simp only [Prod.mk.injEq] at hpair
          obtain ⟨hbm, hom⟩ := hpair
          subst hbm
          subst hom
          have := ih b0 obn d0 hdb hok hr
          simpa [batch_insert.allCommitsSucceed] using this

/-- C1 (no loss, no duplication), for the engine built by `NewBatchInsert`: after any
interleaving of `Insert` calls and flusher cycles, all `Insert` calls have succeeded;
`Close` followed by the flusher's final cycle (woken by the timer or by the signal) can then
run, and the batches handed to `batchInsert` during the whole run, concatenated in the order
of the flushes, are exactly the inserted records in the order of their acceptance, each
once.  Every flusher cycle calls `batchInsert` on the store of the engine with the whole
buffer it swapped out, once, and leaves the buffer empty.  When every commit succeeds (every
`batchInsert` call of the run returns nil), the store has received one transaction per
flushed batch, in the order of the flushes, and the `Exec` calls it has received are exactly
the inserted records, in order, each once; over a store that accepts every call, every commit
does succeed. -/
theorem no_loss_no_duplication {V : Type} (db : Option (DB V)) (sql : String)
    (maxes : List Int) (sched : List (batch_insert.Action V))
    (b : batch_insert.BatchInsert V) (obs : List (batch_insert.Obs V))
    (w : batch_insert.Wake)
    (hphase : batch_insert.openPhase sched = true)
    (hrun : batch_insert.run
      (batch_insert.NewBatchInsert db sql (maxes.map batch_insert.WithMaxCache)) sched
        = some (b, obs)) :
    (∀ e, batch_insert.Obs.insert e ∈ obs → e = none) ∧
    (∃ b1 o,
      batch_insert.run
          (batch_insert.NewBatchInsert db sql (maxes.map batch_insert.WithMaxCache))
          (sched ++ [batch_insert.Action.close, batch_insert.Action.cycle w,
            batch_insert.Action.closeWait])
        = some (b1, obs ++ [batch_insert.Obs.close CloseStatus.waiting,
            batch_insert.Obs.cycle o, batch_insert.Obs.closeWait none]) ∧
      (batch_insert.flushed (obs ++ [batch_insert.Obs.close CloseStatus.waiting,
            batch_insert.Obs.cycle o, batch_insert.Obs.closeWait none])).flatten
        = batch_insert.inserted sched ∧
      o.stopped = true ∧ b1.cache = [] ∧ b1.wg = 0) ∧
    (∀ s : batch_insert.BatchInsert V,
      (batch_insert.flusherBody s).2.handed = (if s.cache.isEmpty then none else some s.cache) ∧
      (batch_insert.flusherBody s).1.cache = [] ∧
      (s.cache = [] → (batch_insert.flusherBody s).1.db = s.db) ∧
      (s.cache ≠ [] →
        (batch_insert.flusherBody s).1.db
          = (batch_insert.batchInsert s.db s.sqlStr s.cache).1 ∧
        (batch_insert.flusherBody s).2.result
          = (batch_insert.batchInsert s.db s.sqlStr s.cache).2)) ∧
    (∀ (d : DB V) (b1 : batch_insert.BatchInsert V) (obs1 : List (batch_insert.Obs V)),
      db = some d →
      batch_insert.run
          (batch_insert.NewBatchInsert db sql (maxes.map batch_insert.WithMaxCache))
          (sched ++ [batch_insert.Action.close, batch_insert.Action.cycle w,
            batch_insert.Action.closeWait])
        = some (b1, obs1) →
      batch_insert.allCommitsSucceed obs1 = true →
      ∃ d1, b1.db = some d1 ∧ d1.respond = d.respond ∧
        newCalls d d1 = (batch_insert.flushed obs1).flatMap (txCalls sql) ∧
        (newCalls d d1).filter Call.isExec = (batch_insert.inserted sched).map Call.Exec) ∧
    (∀ (d : DB V) (b1 : batch_insert.BatchInsert V) (obs1 : List (batch_insert.Obs V)),
      db = some d → (∀ h c, d.respond h c = none) →
      batch_insert.run
          (batch_insert.NewBatchInsert db sql (maxes.map batch_insert.WithMaxCache))
          (sched ++ [batch_insert.Action.close, batch_insert.Action.cycle w,
            batch_insert.Action.closeWait])
        = some (b1, obs1) →
      batch_insert.allCommitsSucceed obs1 = true) := by
  obtain ⟨n1, n2⟩ := NewBatchInsert_open db sql maxes
  obtain ⟨n3, n4⟩ := NewBatchInsert_db db sql maxes
  obtain ⟨p1, p2, p3⟩ := run_openPhase sched _ b obs n1 hphase hrun
  obtain ⟨b1, o, q1, q2, q3, q4, q5, -⟩ := run_shutdown b w p1
  have hfull := run_append _ _ _ _ _ _ _ hrun q1
  have hflat : (batch_insert.flushed (obs ++ [batch_insert.Obs.close CloseStatus.waiting,
      batch_insert.Obs.cycle o, batch_insert.Obs.closeWait none])).flatten
        = batch_insert.inserted sched := by
    rw [flushed_append]
    simp only [batch_insert.flushed, List.flatten_append, List.append_nil, q2]
    rw [n2] at p2
    by_cases he : b.cache = []
    · simp [he] at p2 ⊢
      exact p2
    · simp [he]
      simpa using p2
  refine ⟨p3, ⟨b1, o, hfull, hflat, q3, q4, q5⟩, ?_, ?_, ?_⟩
  · intro s
    by_cases he : s.cache = [] <;> by_cases hc : s.closed = true <;>
      simp [batch_insert.flusherBody, he, hc, List.length_pos]
  · intro d b2 obs1 hd hrun1 hok
    rw [hfull] at hrun1
    simp only [Option.some.injEq, Prod.mk.injEq] at hrun1
    obtain ⟨hb, ho⟩ := hrun1
    subst hb
    subst ho
    obtain ⟨d1, r1, r2, r3, -⟩ := run_store _ _ _ _ d (n3.trans hd) hfull hok
    rw [n4] at r3
    have hcalls := newCalls_of_log d d1 _ r3
    refine ⟨d1, r1, r2, hcalls, ?_⟩
    rw [hcalls, filter_isExec_txCalls, hflat]
  · intro d b2 obs1 hd hok hrun1
    exact run_ok_store _ _ _ _ d (n3.trans hd) hok hrun1

/-- Witness of C1: threshold 2 over a store that accepts every call, the schedule
`Insert [1]`, `Insert [2]`, a cycle woken by the signal, `Insert [3]`, then `Close` and the
final cycle woken by the timer: the store receives two transactions, `[1], [2]` and `[3]`. -/
theorem no_loss_no_duplication_witness :
    (batch_insert.openPhase
        [batch_insert.Action.insert [1], batch_insert.Action.insert [2],
          batch_insert.Action.cycle batch_insert.Wake.kick, batch_insert.Action.insert [3]]
      = true ∧
      (batch_insert.run
        (batch_insert.NewBatchInsert (some okStore) "q" ([2].map batch_insert.WithMaxCache))
        [batch_insert.Action.insert [1], batch_insert.Action.insert [2],
          batch_insert.Action.cycle batch_insert.Wake.kick,
          batch_insert.Action.insert [3]]).map Prod.snd
      = some [batch_insert.Obs.insert none, batch_insert.Obs.insert none,
          batch_insert.Obs.cycle ⟨some [[1], [2]], none, [], false⟩,
          batch_insert.Obs.insert none]) ∧
    (∃ b1 obs1,
      batch_insert.run
          (batch_insert.NewBatchInsert (some okStore) "q" ([2].map batch_insert.WithMaxCache))
          ([batch_insert.Action.insert [1], batch_insert.Action.insert [2],
              batch_insert.Action.cycle batch_insert.Wake.kick,
              batch_insert.Action.insert [3]] ++
            [batch_insert.Action.close, batch_insert.Action.cycle batch_insert.Wake.timer,
              batch_insert.Action.closeWait])
        = some (b1, obs1) ∧
      batch_insert.allCommitsSucceed obs1 = true ∧
      ∃ d1, b1.db = some d1 ∧ d1.respond = okStore.respond ∧
        newCalls okStore d1 =
          [Call.Begin, Call.Prepare "q", Call.Exec [1], Call.Exec [2], Call.Commit,
            Call.StmtClose, Call.Begin, Call.Prepare "q", Call.Exec [3], Call.Commit,
            Call.StmtClose] ∧
        (newCalls okStore d1).filter Call.isExec =
          [Call.Exec [1], Call.Exec [2], Call.Exec [3]]) :=
  ⟨⟨rfl, rfl⟩, _, _, rfl, rfl,
    (no_loss_no_duplication (some okStore) "q" [2]
      [batch_insert.Action.insert [1], batch_insert.Action.insert [2],
        batch_insert.Action.cycle batch_insert.Wake.kick, batch_insert.Action.insert [3]]
      _ _ batch_insert.Wake.timer rfl rfl).2.2.2.1 okStore _ _ rfl rfl rfl⟩

/-! ### `Close` waits for the terminal cycle -/

end batchinsert
